import Mathlib

/-!
Shallow embedding of the `bob_family_tree` service layer
(`src/app/services.py`, `src/app/models.py`, `src/app/main.py`,
`src/app/schemas.py`, `src/app/database.py`) together with proofs about the
relationship reconciler and the location-role reconciler.

The store is modelled as explicit lists of rows; each service function is a
pure function threading the store.  A request either commits (success) or
rolls back (any raised error), mirroring `database.get_session` plus the
route handlers in `main.py`, which only call `session.commit()` on the
success path.
-/

namespace FamilyTree

/-- Relationship types between two people (`models.RelationshipType`). -/
inductive RelType where
  | parent
  | child
  | spouse
deriving DecidableEq, Repr

/-- Roles a location can play for a person (`models.LocationRole`). -/
inductive Role where
  | birthplace
  | residence
  | burial
deriving DecidableEq, Repr

/-- The `RECIPROCAL_RELATIONSHIPS` map from `services.py`.  The Python dict covers
every constructor, so `dict.get` never misses and the map is total. -/
def reciprocal : RelType → RelType
  | .parent => .child
  | .child => .parent
  | .spouse => .spouse

/-- A row of the `people` table (`models.Person`); dates are modelled as
integers with the calendar order. -/
structure Person where
  id : Nat
  first_name : String
  last_name : String
  birth_date : Option Int
  death_date : Option Int
  biography : Option String
  family_id : Option Nat
deriving DecidableEq, Repr

/-- The payload fields of a location (`schemas.LocationBase`). -/
structure LocationData where
  name : String
  description : Option String
  city : Option String
  state : Option String
  country : Option String
deriving DecidableEq, Repr

/-- A row of the `locations` table (`models.Location`). -/
structure Location where
  id : Nat
  data : LocationData
deriving DecidableEq, Repr

/-- A row of the `person_locations` table (`models.PersonLocation`). -/
structure PersonLocation where
  id : Nat
  person_id : Nat
  location_id : Nat
  role : Role
deriving DecidableEq, Repr

/-- A row of the `relationships` table (`models.Relationship`). -/
structure Relationship where
  id : Nat
  from_person_id : Nat
  to_person_id : Nat
  type : RelType
deriving DecidableEq, Repr

/-- A row of the `families` table (`models.Family`). -/
structure Family where
  id : Nat
  name : String
  description : Option String
deriving DecidableEq, Repr

/-- The relational store.  The `next…Id` counters model the primary-key
sequences: every id handed out by a flush is the current counter value. -/
structure Store where
  families : List Family
  people : List Person
  locations : List Location
  relationships : List Relationship
  person_locations : List PersonLocation
  nextFamilyId : Nat
  nextPersonId : Nat
  nextLocationId : Nat
  nextRelationshipId : Nat
  nextLinkId : Nat
deriving DecidableEq, Repr

/-- The request-scoped error kinds raised by the service layer (each one an
`HTTPException` in the Python code, except `integrityError` which models the
database rejecting a flush that violates a declared unique constraint). -/
inductive ApiError where
  | duplicateRole (role : Role)
  | locationNotFound (locId : Nat)
  | personNotFound
  | selfRelationship
  | duplicateRelationship
  | relationshipNotFound
  | familyNotFound
  | familyPayloadConflict
  | deathBeforeBirth
  | integrityError
deriving DecidableEq, Repr

/-- Modelled from the spec: the full `PersonLocationAssignment` schema is not
in the `schemas.py` snapshot under `src/` (the snapshot lacks the
`new_location` field that `services.apply_person_locations` and the tests
use).  Per the spec, an assignment names "either (a) an existing location
identifier or (b) inline data to create a new location". -/
inductive LocationRef where
  | existing (locId : Nat)
  | inline (data : LocationData)
deriving DecidableEq, Repr

/-- An entry of the assignment list handed to the location-role reconciler. -/
structure Assignment where
  role : Role
  target : LocationRef
deriving DecidableEq, Repr

/-- Lookup `session.get(models.Person, pid)`. -/
def findPerson (s : Store) (pid : Nat) : Option Person :=
  s.people.find? (fun p => decide (p.id = pid))

/-- Lookup `session.get(models.Location, lid)`. -/
def findLocation (s : Store) (lid : Nat) : Option Location :=
  s.locations.find? (fun l => decide (l.id = lid))

/-- Query `session.scalar(select(Relationship).where(from, to, type))`: first row
matching the exact triple, if any. -/
def findRelRow (rels : List Relationship) (f t : Nat) (ty : RelType) :
    Option Relationship :=
  rels.find? (fun r => decide (r.from_person_id = f ∧ r.to_person_id = t ∧ r.type = ty))

/-- Function `services._ensure_reciprocal`: insert the mirror edge
`(to, from, reciprocal type)` unless an exact match already exists.  The
pending forward edge cannot match the mirror query (its `from_person_id`
differs from `to_person_id` whenever the edge is not a self-loop), so
querying the full current list agrees with the Python session semantics. -/
def ensureReciprocal (s : Store) (rel : Relationship) : Store :=
  let rtype := reciprocal rel.type
  match findRelRow s.relationships rel.to_person_id rel.from_person_id rtype with
  | some _ => s
  | none =>
      { s with
        relationships := s.relationships ++
          [⟨s.nextRelationshipId, rel.to_person_id, rel.from_person_id, rtype⟩],
        nextRelationshipId := s.nextRelationshipId + 1 }

/-- Deletion `session.delete` of a relationship row, identified by primary key. -/
def removeRelRow (rels : List Relationship) (rid : Nat) : List Relationship :=
  rels.filter (fun r => decide (r.id ≠ rid))

/-- Function `services._remove_reciprocal`: delete the mirror edge if present. -/
def removeReciprocal (s : Store) (rel : Relationship) : Store :=
  match findRelRow s.relationships rel.to_person_id rel.from_person_id (reciprocal rel.type) with
  | some r => { s with relationships := removeRelRow s.relationships r.id }
  | none => s

/-- No two rows with the same `(from_person_id, to_person_id, type)` triple. -/
def sameEdge (a b : Relationship) : Prop :=
  a.from_person_id = b.from_person_id ∧ a.to_person_id = b.to_person_id ∧ a.type = b.type

instance (a b : Relationship) : Decidable (sameEdge a b) := by
  unfold sameEdge
  infer_instance

/-- The `uq_relationship_pair` unique constraint from `models.py`. -/
def relUnique (rels : List Relationship) : Prop :=
  rels.Pairwise (fun a b => ¬ sameEdge a b)

instance (rels : List Relationship) : Decidable (relUnique rels) :=
  List.instDecidablePairwise rels

/-- Flush `session.flush()` on relationship rows: the database enforces
`uq_relationship_pair` (declared in `models.py`), so a flush that would
produce two rows with the same triple raises and aborts the transaction. -/
def flushRels (s : Store) : Except ApiError Store :=
  if relUnique s.relationships then .ok s else .error .integrityError

/-- Payload `schemas.RelationshipCreate`. -/
structure RelationshipCreate where
  from_person_id : Nat
  to_person_id : Nat
  type : RelType
deriving DecidableEq, Repr

/-- Function `services.create_relationship`. -/
def create_relationship (s : Store) (payload : RelationshipCreate) :
    Except ApiError (Store × Relationship) :=
  if payload.from_person_id = payload.to_person_id then
    .error .selfRelationship
  else if (findPerson s payload.from_person_id).isNone then
    .error .personNotFound
  else if (findPerson s payload.to_person_id).isNone then
    .error .personNotFound
  else
    match findRelRow s.relationships payload.from_person_id payload.to_person_id
        payload.type with
    | some _ => .error .duplicateRelationship
    | none =>
        let rel : Relationship :=
          ⟨s.nextRelationshipId, payload.from_person_id, payload.to_person_id, payload.type⟩
        let s1 : Store :=
          { s with relationships := s.relationships ++ [rel],
                   nextRelationshipId := s.nextRelationshipId + 1 }
        match flushRels (ensureReciprocal s1 rel) with
        | .error e => .error e
        | .ok s3 => .ok (s3, rel)

/-- Function `services.update_relationship`, entered through the `PUT` route of
`main.py` which first fetches the row by id. -/
def update_relationship (s : Store) (rid : Nat) (newType : RelType) :
    Except ApiError (Store × Relationship) :=
  match s.relationships.find? (fun r => decide (r.id = rid)) with
  | none => .error .relationshipNotFound
  | some rel =>
      if rel.type = newType then .ok (s, rel)
      else
        let s1 := removeReciprocal s rel
        let s2 : Store :=
          { s1 with relationships :=
              s1.relationships.map (fun r => if r.id = rid then { r with type := newType } else r) }
        match flushRels s2 with
        | .error e => .error e
        | .ok s3 =>
            match flushRels (ensureReciprocal s3 { rel with type := newType }) with
            | .error e => .error e
            | .ok s5 => .ok (s5, { rel with type := newType })

/-- Function `services.delete_relationship`, entered through the `DELETE` route of
`main.py` which first fetches the row by id. -/
def delete_relationship (s : Store) (rid : Nat) : Except ApiError Store :=
  match s.relationships.find? (fun r => decide (r.id = rid)) with
  | none => .error .relationshipNotFound
  | some rel =>
      let s1 := removeReciprocal s rel
      .ok { s1 with relationships := removeRelRow s1.relationships rel.id }

/-- Committed state of a relationship create: commit on success, roll back
(state unchanged) on error. -/
def createRelRun (s : Store) (payload : RelationshipCreate) : Store :=
  match create_relationship s payload with
  | .ok (s', _) => s'
  | .error _ => s

/-- Committed state of a relationship update. -/
def updateRelRun (s : Store) (rid : Nat) (newType : RelType) : Store :=
  match update_relationship s rid newType with
  | .ok (s', _) => s'
  | .error _ => s

/-- Committed state of a relationship delete. -/
def deleteRelRun (s : Store) (rid : Nat) : Store :=
  match delete_relationship s rid with
  | .ok s' => s'
  | .error _ => s

/-- All relationship rows between the unordered pair `{a, b}`. -/
def edgesBetween (rels : List Relationship) (a b : Nat) : List Relationship :=
  rels.filter (fun r =>
    decide ((r.from_person_id = a ∧ r.to_person_id = b) ∨
            (r.from_person_id = b ∧ r.to_person_id = a)))

/-- The duplicate-role scan of `apply_person_locations`: walk the assignment
list with the set of roles seen so far, raising at the first repeat. -/
def seenScan (seen : List Role) : List Assignment → Option Role
  | [] => none
  | a :: rest => if a.role ∈ seen then some a.role else seenScan (a.role :: seen) rest

/-- First role in a role list that repeats an earlier one (input order). -/
def firstDupAux (prev : List Role) : List Role → Option Role
  | [] => none
  | r :: rest => if r ∈ prev then some r else firstDupAux (prev ++ [r]) rest

/-- The first duplicate role of a list, in input order. -/
def firstDuplicate (roles : List Role) : Option Role :=
  firstDupAux [] roles

/-- The dict comprehension over `person.locations`: the role-to-row map of
a person's current location links, keyed by primary key. -/
def byRoleOf (s : Store) (pid : Nat) : List (Role × Nat) :=
  (s.person_locations.filter (fun l => decide (l.person_id = pid))).map
    (fun l => (l.role, l.id))

/-- Dictionary lookup in the role-to-row map. -/
def lookupRole (byRole : List (Role × Nat)) (r : Role) : Option Nat :=
  (byRole.find? (fun pr => decide (pr.1 = r))).map (fun pr => pr.2)

/-- Resolve one assignment target: inline data inserts a fresh `Location`
row (`session.add` + `flush`, which hands out the next id); an existing
identifier is looked up with `session.get` and fails with its id if absent. -/
def resolveTarget (s : Store) : LocationRef → Except Nat (Store × Nat)
  | .inline d =>
      .ok ({ s with locations := s.locations ++ [⟨s.nextLocationId, d⟩],
                    nextLocationId := s.nextLocationId + 1 }, s.nextLocationId)
  | .existing lid =>
      match findLocation s lid with
      | some loc => .ok (s, loc.id)
      | none => .error lid

/-- Assignment `link.location = location`: re-point the link row with primary key
`linkId` at the location `locId`. -/
def repoint (links : List PersonLocation) (linkId locId : Nat) : List PersonLocation :=
  links.map (fun l => if l.id = linkId then { l with location_id := locId } else l)

/-- The per-assignment loop of `apply_person_locations`: resolve or create
the target location, then update the existing link for the role or create a
new one.  Raising an error leaves the session state accumulated so far. -/
def applyLoop (pid : Nat) : Store → List (Role × Nat) → List Assignment →
    Option ApiError × Store
  | s, _, [] => (none, s)
  | s, byRole, a :: rest =>
      match resolveTarget s a.target with
      | .error lid => (some (.locationNotFound lid), s)
      | .ok (s1, locId) =>
          match lookupRole byRole a.role with
          | none =>
              applyLoop pid
                { s1 with
                  person_locations :=
                    s1.person_locations ++ [⟨s1.nextLinkId, pid, locId, a.role⟩],
                  nextLinkId := s1.nextLinkId + 1 }
                (byRole ++ [(a.role, s1.nextLinkId)]) rest
          | some linkId =>
              applyLoop pid
                { s1 with person_locations := repoint s1.person_locations linkId locId }
                byRole rest

/-- Function `services.apply_person_locations`, session-level: duplicate-role scan,
deletion of links whose role is no longer requested, then the assignment
loop.  The returned store is the raw session state (partial mutations are
visible here even on error; the commit/rollback wrapper is below). -/
def apply_person_locations (s : Store) (pid : Nat) (asgs : List Assignment) :
    Option ApiError × Store :=
  match seenScan [] asgs with
  | some r => (some (.duplicateRole r), s)
  | none =>
      let byRole := byRoleOf s pid
      let requested : List Role := asgs.map (fun a => a.role)
      let kept :=
        s.person_locations.filter (fun l => decide (l.person_id ≠ pid ∨ l.role ∈ requested))
      applyLoop pid { s with person_locations := kept } byRole asgs

/-- Transaction boundary for a location reconciliation
(`database.get_session` + the route handlers of `main.py`): commit the
session state on success, roll back to the pre-call store on any error. -/
def applyLocationsRun (s : Store) (pid : Nat) (asgs : List Assignment) :
    Option ApiError × Store :=
  match apply_person_locations s pid asgs with
  | (some e, _) => (some e, s)
  | (none, s') => (none, s')

/-- Payload `schemas.FamilyCreate`. -/
structure FamilyCreate where
  name : String
  description : Option String
deriving DecidableEq, Repr

/-- Modelled from the spec: the full `PersonCreate` schema is not in the
`schemas.py` snapshot under `src/` (the snapshot lacks the nested `family`
payload that `main.py` and the tests use; the spec's "nested-create
convenience"). -/
structure PersonCreate where
  first_name : String
  last_name : String
  birth_date : Option Int
  death_date : Option Int
  biography : Option String
  family_id : Option Nat
  family : Option FamilyCreate
  locations : List Assignment
deriving DecidableEq, Repr

/-- Payload `schemas.PersonUpdate` with `exclude_unset` semantics: `some` means the
field was provided in the request. -/
structure PersonUpdate where
  first_name : Option String
  last_name : Option String
  birth_date : Option Int
  death_date : Option Int
  biography : Option String
  family_id : Option Nat
  locations : Option (List Assignment)
deriving DecidableEq, Repr

/-- Modelled from the spec: the date-ordering validator ("`death_date`, if
present, must not precede `birth_date`") is not in the `schemas.py` snapshot
under `src/`, but its test
(`test_person_with_death_before_birth_rejected`) is.  Returns `true` when a
pair of dates violates the invariant. -/
def datesInverted (birth death : Option Int) : Bool :=
  match birth, death with
  | some b, some d => decide (d < b)
  | _, _ => false

/-- The person-insertion tail of `main.create_person`: insert the row and
reconcile the location assignments in the same session. -/
def insertPerson (s : Store) (fid : Option Nat) (payload : PersonCreate) :
    Option ApiError × Store :=
  let person : Person :=
    ⟨s.nextPersonId, payload.first_name, payload.last_name, payload.birth_date,
      payload.death_date, payload.biography, fid⟩
  apply_person_locations
    { s with people := s.people ++ [person], nextPersonId := s.nextPersonId + 1 }
    person.id payload.locations

/-- Route `main.create_person` (session level): payload validation, family
resolution (either a nested family payload or an existing id, not both),
person insertion and location reconciliation. -/
def create_person (s : Store) (payload : PersonCreate) : Option ApiError × Store :=
  if datesInverted payload.birth_date payload.death_date then
    (some .deathBeforeBirth, s)
  else
    match payload.family, payload.family_id with
    | some _, some _ => (some .familyPayloadConflict, s)
    | some famData, none =>
        let fam : Family := ⟨s.nextFamilyId, famData.name, famData.description⟩
        insertPerson
          { s with families := s.families ++ [fam], nextFamilyId := s.nextFamilyId + 1 }
          (some fam.id) payload
    | none, some fid =>
        if (s.families.find? (fun f => decide (f.id = fid))).isNone then
          (some .familyNotFound, s)
        else insertPerson s (some fid) payload
    | none, none => insertPerson s none payload

/-- Merge an update payload into a person row (`setattr` loop of
`main.update_person`). -/
def mergePerson (p : Person) (u : PersonUpdate) : Person :=
  { p with
    first_name := u.first_name.getD p.first_name,
    last_name := u.last_name.getD p.last_name,
    birth_date := match u.birth_date with | some b => some b | none => p.birth_date,
    death_date := match u.death_date with | some d => some d | none => p.death_date,
    biography := match u.biography with | some x => some x | none => p.biography,
    family_id := match u.family_id with | some f => some f | none => p.family_id }

/-- Tail of `main.update_person`: merge the payload into the row, validate
the resulting row (modelled from the spec's data-model invariant that a
persisted person's `death_date` never precedes its `birth_date`), persist,
then reconcile locations if an assignment list was provided. -/
def updatePersonMerged (s : Store) (pid : Nat) (p : Person) (u : PersonUpdate) :
    Option ApiError × Store :=
  let p' := mergePerson p u
  if datesInverted p'.birth_date p'.death_date then
    (some .deathBeforeBirth, s)
  else
    let s1 : Store :=
      { s with people := s.people.map (fun q => if q.id = pid then p' else q) }
    match u.locations with
    | some asgs => apply_person_locations s1 pid asgs
    | none => (none, s1)

/-- Route `main.update_person` (session level).  The payload-level date check
mirrors the request-layer validator, which runs before the handler body. -/
def update_person (s : Store) (pid : Nat) (u : PersonUpdate) :
    Option ApiError × Store :=
  if datesInverted u.birth_date u.death_date then
    (some .deathBeforeBirth, s)
  else
    match s.people.find? (fun p => decide (p.id = pid)) with
    | none => (some .personNotFound, s)
    | some p =>
        match u.family_id with
        | some fid =>
            if (s.families.find? (fun f => decide (f.id = fid))).isNone then
              (some .familyNotFound, s)
            else updatePersonMerged s pid p u
        | none => updatePersonMerged s pid p u

/-- Transaction boundary for a person create. -/
def createPersonRun (s : Store) (payload : PersonCreate) : Option ApiError × Store :=
  match create_person s payload with
  | (some e, _) => (some e, s)
  | (none, s') => (none, s')

/-- Transaction boundary for a person update. -/
def updatePersonRun (s : Store) (pid : Nat) (u : PersonUpdate) :
    Option ApiError × Store :=
  match update_person s pid u with
  | (some e, _) => (some e, s)
  | (none, s') => (none, s')

/-- Every persisted person satisfies the date-ordering invariant. -/
def peopleDatesOk (s : Store) : Prop :=
  ∀ p ∈ s.people, datesInverted p.birth_date p.death_date = false

/-- Link rows have pairwise-distinct primary keys. -/
def linkIdsNodup (s : Store) : Prop :=
  (s.person_locations.map (fun l => l.id)).Nodup

/-- Link primary keys are below the id sequence counter. -/
def linkIdsBounded (s : Store) : Prop :=
  ∀ l ∈ s.person_locations, l.id < s.nextLinkId

/-- The `uq_person_location_role` constraint: at most one link per
`(person_id, role)`. -/
def rolesUnique (s : Store) : Prop :=
  s.person_locations.Pairwise (fun a b => a.person_id = b.person_id → a.role ≠ b.role)

/-- Well-formed link table. -/
def linksWF (s : Store) : Prop :=
  linkIdsNodup s ∧ linkIdsBounded s ∧ rolesUnique s

/-- Location primary keys are below the id sequence counter. -/
def locIdsBounded (s : Store) : Prop :=
  ∀ loc ∈ s.locations, loc.id < s.nextLocationId

/-- What a resolved assignment target means for the location id stored in
the final link: an existing reference keeps its id; inline data is a
freshly inserted row carrying exactly that data. -/
def targetResolved (s0 : Store) (t : LocationRef) (locId : Nat) (s' : Store) : Prop :=
  match t with
  | .existing lid => locId = lid
  | .inline d => s0.nextLocationId ≤ locId ∧ (⟨locId, d⟩ : Location) ∈ s'.locations

/-! ### Generic facts about the reconciler loops -/

theorem resolveTarget_ok_people {s s1 : Store} {t : LocationRef} {locId : Nat}
    (h : resolveTarget s t = .ok (s1, locId)) : s1.people = s.people := by
  cases t with
  | inline d => simp only [resolveTarget] at h; cases h; rfl
  | existing lid =>
      simp only [resolveTarget] at h
      cases hf : findLocation s lid <;> rw [hf] at h <;> cases h
      rfl

theorem resolveTarget_ok_locations {s s1 : Store} {t : LocationRef} {locId : Nat}
    (h : resolveTarget s t = .ok (s1, locId)) :
    ∃ extra, s1.locations = s.locations ++ extra := by
  cases t with
  | inline d => simp only [resolveTarget] at h; cases h; exact ⟨_, rfl⟩
  | existing lid =>
      simp only [resolveTarget] at h
      cases hf : findLocation s lid <;> rw [hf] at h <;> cases h
      exact ⟨[], (List.append_nil _).symm⟩

theorem applyLoop_people (pid : Nat) (asgs : List Assignment) :
    ∀ (s : Store) (byRole : List (Role × Nat)),
      ((applyLoop pid s byRole asgs).2).people = s.people := by
  induction asgs with
  | nil => intro s byRole; rfl
  | cons a rest ih =>
      intro s byRole
      unfold applyLoop
      cases hres : resolveTarget s a.target with
      | error lid => rfl
      | ok pr =>
          obtain ⟨s1, locId⟩ := pr
          have hp := resolveTarget_ok_people hres
          cases hlook : lookupRole byRole a.role with
          | none => simp only []; rw [ih]; exact hp
          | some linkId => simp only []; rw [ih]; exact hp

theorem applyLoop_locations_extend (pid : Nat) (asgs : List Assignment) :
    ∀ (s : Store) (byRole : List (Role × Nat)),
      ∃ extra, ((applyLoop pid s byRole asgs).2).locations = s.locations ++ extra := by
  induction asgs with
  | nil => intro s byRole; exact ⟨[], (List.append_nil _).symm⟩
  | cons a rest ih =>
      intro s byRole
      unfold applyLoop
      cases hres : resolveTarget s a.target with
      | error lid => exact ⟨[], (List.append_nil _).symm⟩
      | ok pr =>
          obtain ⟨s1, locId⟩ := pr
          obtain ⟨e1, he1⟩ := resolveTarget_ok_locations hres
          cases hlook : lookupRole byRole a.role with
          | none =>
              obtain ⟨e2, he2⟩ := ih _ _
              exact ⟨e1 ++ e2, by simp only []; rw [he2]; simp [he1]⟩
          | some linkId =>
              obtain ⟨e2, he2⟩ := ih _ _
              exact ⟨e1 ++ e2, by simp only []; rw [he2]; simp [he1]⟩

theorem apply_person_locations_people (s : Store) (pid : Nat) (asgs : List Assignment) :
    ((apply_person_locations s pid asgs).2).people = s.people := by
  unfold apply_person_locations
  cases h : seenScan [] asgs with
  | some r => rfl
  | none => rw [applyLoop_people]

theorem apply_person_locations_locations (s : Store) (pid : Nat) (asgs : List Assignment) :
    ∃ extra, ((apply_person_locations s pid asgs).2).locations = s.locations ++ extra := by
  unfold apply_person_locations
  cases h : seenScan [] asgs with
  | some r => exact ⟨[], (List.append_nil _).symm⟩
  | none => exact applyLoop_locations_extend _ _ _ _

/-! ### The duplicate-role scan -/

theorem seenScan_agree (asgs : List Assignment) :
    ∀ (seen prev : List Role), (∀ r, r ∈ seen ↔ r ∈ prev) →
      seenScan seen asgs = firstDupAux prev (asgs.map (fun a => a.role)) := by
  induction asgs with
  | nil => intro seen prev _; rfl
  | cons a rest ih =>
      intro seen prev h
      simp only [seenScan, firstDupAux, List.map]
      by_cases hm : a.role ∈ seen
      · rw [if_pos hm, if_pos ((h a.role).mp hm)]
      · rw [if_neg hm, if_neg (fun hc => hm ((h a.role).mpr hc))]
        refine ih _ _ (fun r => ?_)
        simp only [List.mem_cons, List.mem_append, List.mem_singleton, h r]
        tauto

theorem firstDupAux_eq_none_iff (rs : List Role) :
    ∀ (prev : List Role), firstDupAux prev rs = none ↔ rs.Nodup ∧ ∀ r ∈ rs, r ∉ prev := by
  induction rs with
  | nil => intro prev; simp [firstDupAux]
  | cons r rest ih =>
      intro prev
      simp only [firstDupAux]
      by_cases hm : r ∈ prev
      · rw [if_pos hm]
        simp only [List.nodup_cons, List.mem_cons]
        constructor
        · intro h; exact absurd h (by simp)
        · rintro ⟨-, hall⟩; exact absurd hm (hall r (Or.inl rfl))
      · rw [if_neg hm, ih (prev ++ [r])]
        constructor
        · rintro ⟨hnd, hall⟩
          have hrr : r ∉ rest := fun hr => (hall r hr) (by simp)
          refine ⟨List.nodup_cons.mpr ⟨hrr, hnd⟩, ?_⟩
          intro x hx
          rcases List.mem_cons.mp hx with rfl | hx'
          · exact hm
          · intro hxp; exact (hall x hx') (by simp [hxp])
        · rintro ⟨hnd, hall⟩
          obtain ⟨hrr, hnd'⟩ := List.nodup_cons.mp hnd
          refine ⟨hnd', fun x hx hxp => ?_⟩
          rcases List.mem_append.mp hxp with h1 | h2
          · exact (hall x (List.mem_cons_of_mem _ hx)) h1
          · have hxr : x = r := by simpa using h2
            subst hxr; exact hrr hx

theorem seenScan_eq_firstDuplicate (asgs : List Assignment) :
    seenScan [] asgs = firstDuplicate (asgs.map (fun a => a.role)) :=
  seenScan_agree asgs [] [] (fun r => Iff.rfl)

theorem seenScan_none_iff (asgs : List Assignment) :
    seenScan [] asgs = none ↔ (asgs.map (fun a => a.role)).Nodup := by
  rw [seenScan_eq_firstDuplicate, firstDuplicate, firstDupAux_eq_none_iff]
  simp

theorem seenScan_of_dup {asgs : List Assignment}
    (hdup : ¬ (asgs.map (fun a => a.role)).Nodup) :
    ∃ r, seenScan [] asgs = some r ∧
      firstDuplicate (asgs.map (fun a => a.role)) = some r := by
  cases h : seenScan [] asgs with
  | none => exact absurd ((seenScan_none_iff asgs).mp h) hdup
  | some r => exact ⟨r, rfl, by rw [← seenScan_eq_firstDuplicate, h]⟩

theorem apply_of_dup {asgs : List Assignment} (s : Store) (pid : Nat)
    (hdup : ¬ (asgs.map (fun a => a.role)).Nodup) :
    ∃ r, apply_person_locations s pid asgs = (some (.duplicateRole r), s) ∧
      firstDuplicate (asgs.map (fun a => a.role)) = some r := by
  obtain ⟨r, hscan, hfirst⟩ := seenScan_of_dup hdup
  refine ⟨r, ?_, hfirst⟩
  unfold apply_person_locations
  rw [hscan]

/-! ### Claim theorems: C3, C10, C9, C6 and the C1/C2/C5 counterexamples -/

/-- C3: an assignment list with two entries of the same role makes the
location-role reconciler fail with `DuplicateRoleError` naming the first
duplicate role in input order, and the failure happens before any mutation:
the raw session state returned together with the error is exactly the
pre-call store (links and locations untouched). -/
theorem c3_duplicate_role_rejected (s : Store) (pid : Nat) (asgs : List Assignment)
    (hdup : ¬ (asgs.map (fun a => a.role)).Nodup) :
    ∃ r, apply_person_locations s pid asgs = (some (.duplicateRole r), s) ∧
      firstDuplicate (asgs.map (fun a => a.role)) = some r :=
  apply_of_dup s pid hdup

/-- Witness for C3 at a concrete duplicate-role input. -/
theorem c3_witness :
    ∃ r,
      apply_person_locations
          ⟨[], [], [], [], [], 0, 0, 0, 0, 0⟩ 1
          [⟨.residence, .existing 5⟩, ⟨.residence, .existing 6⟩] =
        (some (.duplicateRole r), ⟨[], [], [], [], [], 0, 0, 0, 0, 0⟩) ∧
      firstDuplicate
          ([⟨.residence, .existing 5⟩, ⟨.residence, .existing 6⟩].map
            (fun (a : Assignment) => a.role)) = some r :=
  c3_duplicate_role_rejected _ 1 _ (by decide)

/-- C10: when the assignment list has both a duplicate role and a dangling
location identifier, the duplicate-role scan runs first (before any location
is resolved), so the call fails with `DuplicateRoleError`, not
`LocationNotFoundError`, wherever the two offending entries sit. -/
theorem c10_duplicate_checked_before_locations (s : Store) (pid : Nat)
    (asgs : List Assignment)
    (hdup : ¬ (asgs.map (fun a => a.role)).Nodup)
    (hdangling : ∃ a ∈ asgs, ∃ lid, a.target = .existing lid ∧
      lid ∉ s.locations.map (fun loc => loc.id)) :
    ∃ r, applyLocationsRun s pid asgs = (some (.duplicateRole r), s) := by
  obtain ⟨r, happly, -⟩ := apply_of_dup s pid hdup
  refine ⟨r, ?_⟩
  unfold applyLocationsRun
  rw [happly]

/-- Witness for C10: dangling identifier first, duplicate role later. -/
theorem c10_witness :
    ∃ r,
      applyLocationsRun ⟨[], [], [], [], [], 0, 0, 0, 0, 0⟩ 1
          [⟨.burial, .existing 9⟩, ⟨.residence, .existing 5⟩, ⟨.residence, .existing 6⟩] =
        (some (.duplicateRole r), ⟨[], [], [], [], [], 0, 0, 0, 0, 0⟩) :=
  c10_duplicate_checked_before_locations _ 1 _ (by decide)
    ⟨⟨.burial, .existing 9⟩, by decide, 9, rfl, by decide⟩

/-- C9: relationship creation with `from == to` always fails with
`SelfRelationshipError` and mutates nothing, for every store and every
person id `x` — including ids with no `Person` row and pairs for which a
`(x, x, type)` edge is already present, because the self-loop check runs
before the person-existence and duplicate-edge checks. -/
theorem c9_self_relationship_rejected (s : Store) (x : Nat) (ty : RelType) :
    create_relationship s ⟨x, x, ty⟩ = .error .selfRelationship ∧
      createRelRun s ⟨x, x, ty⟩ = s := by
  constructor
  · unfold create_relationship
    rw [if_pos rfl]
  · unfold createRelRun create_relationship
    rw [if_pos rfl]

theorem insertPerson_people (s : Store) (fid : Option Nat) (pc : PersonCreate) :
    ((insertPerson s fid pc).2).people = s.people ++
      [⟨s.nextPersonId, pc.first_name, pc.last_name, pc.birth_date, pc.death_date,
        pc.biography, fid⟩] := by
  unfold insertPerson
  rw [apply_person_locations_people]

theorem create_person_ok_people {s s' : Store} {pc : PersonCreate}
    (h : create_person s pc = (none, s')) :
    datesInverted pc.birth_date pc.death_date = false ∧
    ∃ fid, s'.people = s.people ++
      [⟨s.nextPersonId, pc.first_name, pc.last_name, pc.birth_date, pc.death_date,
        pc.biography, fid⟩] := by
  unfold create_person at h
  split at h
  · simp at h
  · rename_i hinv
    have hinv' : datesInverted pc.birth_date pc.death_date = false := by
      revert hinv; cases datesInverted pc.birth_date pc.death_date <;> simp
    refine ⟨hinv', ?_⟩
    split at h
    · simp at h
    · have hsnd := congrArg Prod.snd h
      simp only at hsnd
      exact ⟨some s.nextFamilyId, by rw [← hsnd, insertPerson_people]⟩
    · split at h
      · simp at h
      · have hsnd := congrArg Prod.snd h
        simp only at hsnd
        exact ⟨_, by rw [← hsnd, insertPerson_people]⟩
    · have hsnd := congrArg Prod.snd h
      simp only at hsnd
      exact ⟨none, by rw [← hsnd, insertPerson_people]⟩

theorem update_person_ok_people {s s' : Store} {pid : Nat} {u : PersonUpdate}
    (h : update_person s pid u = (none, s')) :
    ∃ p', datesInverted p'.birth_date p'.death_date = false ∧
      s'.people = s.people.map (fun q => if q.id = pid then p' else q) := by
  have hmain : ∀ p : Person, updatePersonMerged s pid p u = (none, s') →
      ∃ p', datesInverted p'.birth_date p'.death_date = false ∧
        s'.people = s.people.map (fun q => if q.id = pid then p' else q) := by
    intro p hmerged
    simp only [updatePersonMerged] at hmerged
    split at hmerged
    · simp at hmerged
    · rename_i hinv2
      have hinv2' : datesInverted (mergePerson p u).birth_date
          (mergePerson p u).death_date = false := by
        revert hinv2
        cases datesInverted (mergePerson p u).birth_date (mergePerson p u).death_date <;> simp
      refine ⟨mergePerson p u, hinv2', ?_⟩
      split at hmerged
      · have hsnd := congrArg Prod.snd hmerged
        simp only at hsnd
        rw [← hsnd, apply_person_locations_people]
      · have hsnd := congrArg Prod.snd hmerged
        simp only at hsnd
        rw [← hsnd]
  unfold update_person at h
  split at h
  · simp at h
  · split at h
    · simp at h
    · rename_i p _
      split at h
      · split at h
        · simp at h
        · exact hmain p h
      · exact hmain p h

/-- C6: a person create or update whose payload carries both dates with
`death_date` strictly before `birth_date` fails with the date-ordering
validation error and commits nothing; moreover both committed operations
preserve the invariant that no persisted person has `death_date` preceding
`birth_date`. -/
theorem c6_death_before_birth_rejected (s : Store) (pc : PersonCreate)
    (pid : Nat) (pu : PersonUpdate) (b d b' d' : Int) :
    (pc.birth_date = some b → pc.death_date = some d → d < b →
      createPersonRun s pc = (some .deathBeforeBirth, s)) ∧
    (pu.birth_date = some b' → pu.death_date = some d' → d' < b' →
      updatePersonRun s pid pu = (some .deathBeforeBirth, s)) ∧
    (peopleDatesOk s → peopleDatesOk (createPersonRun s pc).2) ∧
    (peopleDatesOk s → peopleDatesOk (updatePersonRun s pid pu).2) := by
  refine ⟨?_, ?_, ?_, ?_⟩
  · intro hb hd hlt
    have hinv : datesInverted pc.birth_date pc.death_date = true := by
      rw [hb, hd]; simp [datesInverted, hlt]
    unfold createPersonRun create_person
    rw [if_pos hinv]
  · intro hb hd hlt
    have hinv : datesInverted pu.birth_date pu.death_date = true := by
      rw [hb, hd]; simp [datesInverted, hlt]
    unfold updatePersonRun update_person
    rw [if_pos hinv]
  · intro hok
    unfold createPersonRun
    cases hc : create_person s pc with
    | mk e s' =>
        cases e with
        | some err => exact hok
        | none =>
            obtain ⟨hinv, fid, hpeople⟩ := create_person_ok_people hc
            intro p hp
            simp only at hp
            rw [hpeople] at hp
            rcases List.mem_append.mp hp with hold | hnew
            · exact hok p hold
            · have : p = ⟨s.nextPersonId, pc.first_name, pc.last_name, pc.birth_date,
                  pc.death_date, pc.biography, fid⟩ := by simpa using hnew
              rw [this]
              exact hinv
  · intro hok
    unfold updatePersonRun
    cases hc : update_person s pid pu with
    | mk e s' =>
        cases e with
        | some err => exact hok
        | none =>
            obtain ⟨p', hinv, hpeople⟩ := update_person_ok_people hc
            intro p hp
            simp only at hp
            rw [hpeople] at hp
            obtain ⟨q, hq, hfq⟩ := List.mem_map.mp hp
            by_cases hqid : q.id = pid
            · rw [if_pos hqid] at hfq; rw [← hfq]; exact hinv
            · rw [if_neg hqid] at hfq; rw [← hfq]; exact hok q hq

/-- Witness for C6 at a concrete inverted-date payload. -/
theorem c6_witness :
    createPersonRun ⟨[], [], [], [], [], 0, 0, 0, 0, 0⟩
        ⟨"T", "A", some 200, some 100, none, none, none, []⟩ =
      (some .deathBeforeBirth, ⟨[], [], [], [], [], 0, 0, 0, 0, 0⟩) ∧
    updatePersonRun ⟨[], [], [], [], [], 0, 0, 0, 0, 0⟩ 1
        ⟨none, none, some 200, some 100, none, none, none⟩ =
      (some .deathBeforeBirth, ⟨[], [], [], [], [], 0, 0, 0, 0, 0⟩) := by
  have h := c6_death_before_birth_rejected ⟨[], [], [], [], [], 0, 0, 0, 0, 0⟩
    ⟨"T", "A", some 200, some 100, none, none, none, []⟩ 1
    ⟨none, none, some 200, some 100, none, none, none⟩ 200 100 200 100
  exact ⟨h.1 rfl rfl (by decide), h.2.1 rfl rfl (by decide)⟩

/-! ### Concrete stores used by the counterexamples -/

/-- Two people, already linked by a mirrored spouse pair. -/
def spousePairStore : Store :=
  ⟨[], [⟨1, "a", "b", none, none, none, none⟩, ⟨2, "c", "d", none, none, none, none⟩],
    [], [⟨10, 1, 2, .spouse⟩, ⟨11, 2, 1, .spouse⟩], [], 0, 3, 0, 12, 0⟩

/-- Two people, linked by a mirrored parent/child pair and nothing else. -/
def parentPairStore : Store :=
  ⟨[], [⟨1, "a", "b", none, none, none, none⟩, ⟨2, "c", "d", none, none, none, none⟩],
    [], [⟨10, 1, 2, .parent⟩, ⟨11, 2, 1, .child⟩], [], 0, 3, 0, 12, 0⟩

/-- One person, no locations and no links. -/
def lonePersonStore : Store :=
  ⟨[], [⟨1, "a", "b", none, none, none, none⟩], [], [], [], 0, 2, 0, 0, 0⟩

/-- A single inline-location assignment for the birthplace role. -/
def inlineAsgs : List Assignment :=
  [⟨.birthplace, .inline ⟨"x", none, none, none, none⟩⟩]

/-- Counterexample to C1 as stated: on `spousePairStore` the creation
`(1, 2, parent)` is valid in the claim's sense (distinct existing persons,
no `(1, 2, parent)` edge), yet after the call four edges exist between the
pair — the pre-existing spouse pair is still there, so it is not true that
"no other relationship edge between the pair exists". -/
theorem c1_counterexample :
    (1 : Nat) ≠ 2 ∧
    (findPerson spousePairStore 1).isSome = true ∧
    (findPerson spousePairStore 2).isSome = true ∧
    findRelRow spousePairStore.relationships 1 2 .parent = none ∧
    (create_relationship spousePairStore ⟨1, 2, .parent⟩).toOption.isSome = true ∧
    (edgesBetween (createRelRun spousePairStore ⟨1, 2, .parent⟩).relationships 1 2).length
      = 4 := by
  decide

/-- Counterexample to C2 as stated: on `parentPairStore` (a clean mirrored
parent pair, the only edges between persons 1 and 2), updating the forward
edge from `parent` to `child` succeeds, but the resulting store still holds
an edge of the old type `parent` between the two persons — the freshly
ensured mirror of `child` is itself a `parent` edge — so it is not true
that zero edges of the old type remain. -/
theorem c2_counterexample :
    (⟨10, 1, 2, .parent⟩ : Relationship) ∈ parentPairStore.relationships ∧
    (⟨11, 2, 1, .child⟩ : Relationship) ∈ parentPairStore.relationships ∧
    edgesBetween parentPairStore.relationships 1 2 =
      [⟨10, 1, 2, .parent⟩, ⟨11, 2, 1, .child⟩] ∧
    (update_relationship parentPairStore 10 .child).toOption.isSome = true ∧
    ((updateRelRun parentPairStore 10 .child).relationships.filter
      (fun r => decide (r.type = .parent))).length = 1 := by
  decide

/-- Counterexample to C5 as stated: reconciling `lonePersonStore` twice with
the same single inline assignment succeeds both times, but the second call
creates a second copy of the inline `Location` row and re-points the
birthplace link at it, so the persisted link set changes. -/
theorem c5_counterexample :
    (applyLocationsRun lonePersonStore 1 inlineAsgs).1 = none ∧
    (applyLocationsRun (applyLocationsRun lonePersonStore 1 inlineAsgs).2 1 inlineAsgs).1
      = none ∧
    (applyLocationsRun (applyLocationsRun lonePersonStore 1 inlineAsgs).2 1
        inlineAsgs).2.person_locations ≠
      (applyLocationsRun lonePersonStore 1 inlineAsgs).2.person_locations := by
  decide

/-! ### Uniqueness of relationship triples -/

theorem findRelRow_eq_none_iff {rels : List Relationship} {f t : Nat} {ty : RelType} :
    findRelRow rels f t ty = none ↔
      ∀ r ∈ rels, ¬ (r.from_person_id = f ∧ r.to_person_id = t ∧ r.type = ty) := by
  unfold findRelRow
  rw [List.find?_eq_none]
  simp

theorem relUnique_append_single {rels : List Relationship} {x : Relationship}
    (h : relUnique rels) (hx : ∀ r ∈ rels, ¬ sameEdge r x) : relUnique (rels ++ [x]) := by
  rw [relUnique, List.pairwise_append]
  refine ⟨h, List.pairwise_singleton _ _, fun a ha b hb => ?_⟩
  have hb' : b = x := by simpa using hb
  subst hb'
  exact hx a ha

theorem removeReciprocal_unique {s : Store} {rel : Relationship}
    (h : relUnique s.relationships) : relUnique (removeReciprocal s rel).relationships := by
  unfold removeReciprocal
  cases hfind : findRelRow s.relationships rel.to_person_id rel.from_person_id
      (reciprocal rel.type) with
  | none => exact h
  | some r => exact List.Pairwise.sublist (List.filter_sublist _) h

theorem ensureReciprocal_unique {s : Store} {rel : Relationship}
    (h : relUnique s.relationships) : relUnique (ensureReciprocal s rel).relationships := by
  simp only [ensureReciprocal]
  split
  · exact h
  · rename_i hfind
    refine relUnique_append_single h (fun r hr hsame => ?_)
    exact (findRelRow_eq_none_iff.mp hfind r hr) ⟨hsame.1, hsame.2.1, hsame.2.2⟩

theorem flushRels_ok {s s' : Store} (h : flushRels s = .ok s') :
    s' = s ∧ relUnique s.relationships := by
  unfold flushRels at h
  split at h
  · cases h; exact ⟨rfl, by assumption⟩
  · cases h

theorem create_relationship_ok_unique (s s' : Store) (pc : RelationshipCreate)
    (rel : Relationship) (h : create_relationship s pc = .ok (s', rel)) :
    relUnique s'.relationships := by
  simp only [create_relationship] at h
  split at h
  · cases h
  · split at h
    · cases h
    · split at h
      · cases h
      · split at h
        · cases h
        · split at h
          · cases h
          · rename_i s3 hflush
            cases h
            exact ((flushRels_ok hflush).1 ▸ (flushRels_ok hflush).2)

theorem update_relationship_ok_unique (s s' : Store) (rid : Nat) (nt : RelType)
    (rel : Relationship) (hu : relUnique s.relationships)
    (h : update_relationship s rid nt = .ok (s', rel)) : relUnique s'.relationships := by
  simp only [update_relationship] at h
  split at h
  · cases h
  · split at h
    · cases h; exact hu
    · split at h
      · cases h
      · split at h
        · cases h
        · rename_i hflush2
          cases h
          exact ((flushRels_ok hflush2).1 ▸ (flushRels_ok hflush2).2)

theorem delete_relationship_ok_unique {s s' : Store} {rid : Nat}
    (hu : relUnique s.relationships) (h : delete_relationship s rid = .ok s') :
    relUnique s'.relationships := by
  simp only [delete_relationship] at h
  split at h
  · cases h
  · cases h
    exact List.Pairwise.sublist (List.filter_sublist _) (removeReciprocal_unique hu)

/-- C8: the "at most one relationship row per `(from, to, type)`" invariant
is preserved by the committed result of every reconciler operation, whether
it succeeds (the final flush is accepted by the unique constraint) or fails
(the transaction rolls back); and ensuring a mirror edge inserts nothing
when an exact `(to, from, mirror-type)` match already exists. -/
theorem c8_pair_uniqueness_preserved (s : Store) (pc : RelationshipCreate)
    (rid : Nat) (nt : RelType) (hu : relUnique s.relationships) :
    relUnique (createRelRun s pc).relationships ∧
    relUnique (updateRelRun s rid nt).relationships ∧
    relUnique (deleteRelRun s rid).relationships ∧
    (∀ rel : Relationship,
      (findRelRow s.relationships rel.to_person_id rel.from_person_id
        (reciprocal rel.type)).isSome = true →
      ensureReciprocal s rel = s) := by
  refine ⟨?_, ?_, ?_, ?_⟩
  · unfold createRelRun
    cases hc : create_relationship s pc with
    | error e => exact hu
    | ok pr => exact create_relationship_ok_unique s pr.1 pc pr.2 (by rw [hc])
  · unfold updateRelRun
    cases hc : update_relationship s rid nt with
    | error e => exact hu
    | ok pr => exact update_relationship_ok_unique s pr.1 rid nt pr.2 hu (by rw [hc])
  · unfold deleteRelRun
    cases hc : delete_relationship s rid with
    | error e => exact hu
    | ok s' => exact delete_relationship_ok_unique hu hc
  · intro rel hsome
    simp only [ensureReciprocal]
    split
    · rfl
    · rename_i hfind
      rw [hfind] at hsome
      simp at hsome

/-- Witness for C8 at a concrete store satisfying the invariant. -/
theorem c8_witness :
    relUnique spousePairStore.relationships ∧
    relUnique (createRelRun spousePairStore ⟨1, 2, .parent⟩).relationships ∧
    relUnique (updateRelRun spousePairStore 10 .child).relationships ∧
    relUnique (deleteRelRun spousePairStore 10).relationships := by
  have h := c8_pair_uniqueness_preserved spousePairStore ⟨1, 2, .parent⟩ 10 .child
    (by decide)
  exact ⟨by decide, h.1, h.2.1, h.2.2.1⟩

theorem findPerson_isNone_false {s : Store} {pid : Nat}
    (h : ∃ p ∈ s.people, p.id = pid) : (findPerson s pid).isNone = false := by
  obtain ⟨p, hp, hid⟩ := h
  have hsome : (s.people.find? (fun q => decide (q.id = pid))).isSome = true :=
    List.find?_isSome.mpr ⟨p, hp, by simp [hid]⟩
  unfold findPerson
  cases hx : s.people.find? (fun q => decide (q.id = pid)) with
  | some q => rfl
  | none => rw [hx] at hsome; simp at hsome

theorem flushRels_of_unique (s : Store) (h : relUnique s.relationships) :
    flushRels s = .ok s := by
  unfold flushRels
  rw [if_pos h]

/-- C1, amended: the claim as stated fails when other edges already link the
pair (see the counterexample), so it is restated for creations on a pair
with no pre-existing edge between them, over a store satisfying the
uniqueness invariant.  Then the create succeeds, returns the forward edge,
and afterwards the edges between the pair are exactly the forward edge and
its mirror. -/
theorem c1_mirror_symmetry_amended (s : Store) (pc : RelationshipCreate)
    (hu : relUnique s.relationships)
    (hne : pc.from_person_id ≠ pc.to_person_id)
    (hfrom : ∃ p ∈ s.people, p.id = pc.from_person_id)
    (hto : ∃ p ∈ s.people, p.id = pc.to_person_id)
    (hempty : edgesBetween s.relationships pc.from_person_id pc.to_person_id = []) :
    ∃ s',
      create_relationship s pc =
        .ok (s', ⟨s.nextRelationshipId, pc.from_person_id, pc.to_person_id, pc.type⟩) ∧
      edgesBetween s'.relationships pc.from_person_id pc.to_person_id =
        [⟨s.nextRelationshipId, pc.from_person_id, pc.to_person_id, pc.type⟩,
          ⟨s.nextRelationshipId + 1, pc.to_person_id, pc.from_person_id,
            reciprocal pc.type⟩] := by
  have hno : ∀ r ∈ s.relationships,
      ¬ ((r.from_person_id = pc.from_person_id ∧ r.to_person_id = pc.to_person_id) ∨
         (r.from_person_id = pc.to_person_id ∧ r.to_person_id = pc.from_person_id)) := by
    intro r hr
    have hq := List.filter_eq_nil_iff.mp hempty r hr
    simpa using hq
  have hdup : findRelRow s.relationships pc.from_person_id pc.to_person_id pc.type
      = none :=
    findRelRow_eq_none_iff.mpr (fun r hr hc => hno r hr (Or.inl ⟨hc.1, hc.2.1⟩))
  have hmir : findRelRow
      (s.relationships ++
        [⟨s.nextRelationshipId, pc.from_person_id, pc.to_person_id, pc.type⟩])
      pc.to_person_id pc.from_person_id (reciprocal pc.type) = none := by
    refine findRelRow_eq_none_iff.mpr (fun r hr hc => ?_)
    rcases List.mem_append.mp hr with hin | hfwd
    · exact hno r hin (Or.inr ⟨hc.1, hc.2.1⟩)
    · have hrf : r = ⟨s.nextRelationshipId, pc.from_person_id, pc.to_person_id, pc.type⟩ :=
        by simpa using hfwd
      rw [hrf] at hc
      exact hne hc.1
  have hu2 : relUnique
      ((s.relationships ++
          [⟨s.nextRelationshipId, pc.from_person_id, pc.to_person_id, pc.type⟩]) ++
        [⟨s.nextRelationshipId + 1, pc.to_person_id, pc.from_person_id,
          reciprocal pc.type⟩]) := by
    refine relUnique_append_single (relUnique_append_single hu ?_) ?_
    · intro r hr hsame
      exact hno r hr (Or.inl ⟨hsame.1, hsame.2.1⟩)
    · intro r hr hsame
      rcases List.mem_append.mp hr with hin | hfwd
      · exact hno r hin (Or.inr ⟨hsame.1, hsame.2.1⟩)
      · have hrf : r = ⟨s.nextRelationshipId, pc.from_person_id, pc.to_person_id, pc.type⟩ :=
          by simpa using hfwd
        rw [hrf] at hsame
        exact hne hsame.1
  have hens : ensureReciprocal
      { s with
        relationships := s.relationships ++
          [⟨s.nextRelationshipId, pc.from_person_id, pc.to_person_id, pc.type⟩],
        nextRelationshipId := s.nextRelationshipId + 1 }
      ⟨s.nextRelationshipId, pc.from_person_id, pc.to_person_id, pc.type⟩ =
      { s with
        relationships := s.relationships ++
          [⟨s.nextRelationshipId, pc.from_person_id, pc.to_person_id, pc.type⟩] ++
          [⟨s.nextRelationshipId + 1, pc.to_person_id, pc.from_person_id,
            reciprocal pc.type⟩],
        nextRelationshipId := s.nextRelationshipId + 1 + 1 } := by
    simp only [ensureReciprocal]
    rw [hmir]
  have hcreate : create_relationship s pc =
      .ok ({ s with
          relationships := s.relationships ++
            [⟨s.nextRelationshipId, pc.from_person_id, pc.to_person_id, pc.type⟩] ++
            [⟨s.nextRelationshipId + 1, pc.to_person_id, pc.from_person_id,
              reciprocal pc.type⟩],
          nextRelationshipId := s.nextRelationshipId + 1 + 1 },
        ⟨s.nextRelationshipId, pc.from_person_id, pc.to_person_id, pc.type⟩) := by
    simp only [create_relationship]
    rw [if_neg hne, findPerson_isNone_false hfrom, if_neg Bool.false_ne_true,
      findPerson_isNone_false hto, if_neg Bool.false_ne_true, hdup, hens,
      flushRels_of_unique
        { s with
          relationships := s.relationships ++
            [⟨s.nextRelationshipId, pc.from_person_id, pc.to_person_id, pc.type⟩] ++
            [⟨s.nextRelationshipId + 1, pc.to_person_id, pc.from_person_id,
              reciprocal pc.type⟩],
          nextRelationshipId := s.nextRelationshipId + 1 + 1 } hu2]
  refine ⟨_, hcreate, ?_⟩
  simp only [edgesBetween] at hempty ⊢
  rw [List.filter_append, List.filter_append, hempty]
  simp

/-- Two people and no relationship rows at all. -/
def cleanPairStore : Store :=
  ⟨[], [⟨1, "a", "b", none, none, none, none⟩, ⟨2, "c", "d", none, none, none, none⟩],
    [], [], [], 0, 3, 0, 0, 0⟩

/-- Witness for C1 (amended) on a pair with no pre-existing edges. -/
theorem c1_witness :
    ∃ s',
      create_relationship cleanPairStore ⟨1, 2, .parent⟩ =
        .ok (s', ⟨0, 1, 2, .parent⟩) ∧
      edgesBetween s'.relationships 1 2 = [⟨0, 1, 2, .parent⟩, ⟨1, 2, 1, .child⟩] :=
  c1_mirror_symmetry_amended cleanPairStore ⟨1, 2, .parent⟩ (by decide) (by decide)
    ⟨⟨1, "a", "b", none, none, none, none⟩, by decide, rfl⟩
    ⟨⟨2, "c", "d", none, none, none, none⟩, by decide, rfl⟩ (by decide)

/-! ### Helper lemmas for update reconciliation -/

theorem find?_eq_some_of_unique {α : Type} {l : List α} {p : α → Bool} {x : α}
    (hx : x ∈ l) (hpx : p x = true) (huniq : ∀ y ∈ l, p y = true → y = x) :
    l.find? p = some x := by
  cases hf : l.find? p with
  | none => exact absurd hpx (List.find?_eq_none.mp hf x hx)
  | some y =>
      rw [huniq y (List.mem_of_find?_eq_some hf) (List.find?_some hf)]

theorem filter_eq_singleton_of {α : Type} {l : List α} {p : α → Bool} {x : α}
    (hnd : l.Nodup) (hx : x ∈ l) (hiff : ∀ y ∈ l, (p y = true ↔ y = x)) :
    l.filter p = [x] := by
  induction l with
  | nil => cases hx
  | cons hd tl ih =>
      obtain ⟨hht, hndtl⟩ := List.nodup_cons.mp hnd
      rcases List.mem_cons.mp hx with rfl | hxtl
      · rw [List.filter_cons_of_pos ((hiff x (List.mem_cons_self _ _)).mpr rfl)]
        have htl : tl.filter p = [] := by
          rw [List.filter_eq_nil_iff]
          intro y hy hpy
          exact hht ((hiff y (List.mem_cons_of_mem _ hy)).mp hpy ▸ hy)
        rw [htl]
      · have hph : p hd = false := by
          cases hph : p hd with
          | false => rfl
          | true =>
              exact absurd ((hiff hd (List.mem_cons_self _ _)).mp hph ▸ hxtl) hht
        rw [List.filter_cons_of_neg (by simp [hph])]
        exact ih hndtl hxtl (fun y hy => hiff y (List.mem_cons_of_mem _ hy))

/-- C2, amended: the claim as stated fails for `parent ↔ child` updates (the
freshly ensured mirror of the new type carries the old type — see the
counterexample) and for stores with further edges between the pair.  Amended
to: for a mirrored pair that forms all edges between two persons, over a
store satisfying the uniqueness and primary-key invariants, updating the
forward edge to a different type removes the old mirror, retypes the edge in
place, ensures the new mirror, and afterwards the edges between the two
persons are exactly the forward edge of the new type and its mirror (so an
edge of the old type `t` remains only in the `parent ↔ child` case, where
`reciprocal t' = t`). -/
theorem c2_update_symmetry_amended (s : Store) (i j a b : Nat) (t t' : RelType)
    (hu : relUnique s.relationships)
    (hids : (s.relationships.map (fun r => r.id)).Nodup)
    (hab : a ≠ b)
    (htt : t ≠ t')
    (hrow : (⟨i, a, b, t⟩ : Relationship) ∈ s.relationships)
    (hmirror : (⟨j, b, a, reciprocal t⟩ : Relationship) ∈ s.relationships)
    (honly : ∀ r ∈ s.relationships,
      ((r.from_person_id = a ∧ r.to_person_id = b) ∨
        (r.from_person_id = b ∧ r.to_person_id = a)) →
      r = ⟨i, a, b, t⟩ ∨ r = ⟨j, b, a, reciprocal t⟩) :
    ∃ s',
      update_relationship s i t' = .ok (s', ⟨i, a, b, t'⟩) ∧
      edgesBetween s'.relationships a b =
        [⟨i, a, b, t'⟩, ⟨s.nextRelationshipId, b, a, reciprocal t'⟩] := by
  have hinj := List.inj_on_of_nodup_map hids
  have hij : i ≠ j := by
    intro he
    have heq : (⟨i, a, b, t⟩ : Relationship) = ⟨j, b, a, reciprocal t⟩ :=
      hinj hrow hmirror (by simpa using he)
    have hfrom := congrArg Relationship.from_person_id heq
    exact hab (by simpa using hfrom)
  have hfind : s.relationships.find? (fun r => decide (r.id = i)) =
      some ⟨i, a, b, t⟩ :=
    find?_eq_some_of_unique hrow (by simp)
      (fun y hy hpy => hinj hy hrow (by simpa using hpy))
  have hfindm : findRelRow s.relationships b a (reciprocal t) =
      some ⟨j, b, a, reciprocal t⟩ := by
    refine find?_eq_some_of_unique hmirror (by simp) (fun y hy hpy => ?_)
    have hy' : y.from_person_id = b ∧ y.to_person_id = a ∧ y.type = reciprocal t := by
      simpa using hpy
    rcases honly y hy (Or.inr ⟨hy'.1, hy'.2.1⟩) with hrowcase | hmircase
    · exfalso
      rw [hrowcase] at hy'
      exact hab (show a = b from hy'.1)
    · exact hmircase
  -- facts about the filtered list (mirror row removed)
  have hfiltmem : (⟨i, a, b, t⟩ : Relationship) ∈ removeRelRow s.relationships j :=
    List.mem_filter.mpr ⟨hrow, by simp [hij]⟩
  have hfilt_decomp : ∀ y ∈ removeRelRow s.relationships j,
      y ∈ s.relationships ∧ y.id ≠ j := by
    intro y hy
    have := List.mem_filter.mp hy
    exact ⟨this.1, by simpa using this.2⟩
  -- uniqueness after retyping the forward row in place
  have hu3 : relUnique ((removeRelRow s.relationships j).map
      (fun r => if r.id = i then { r with type := t' } else r)) := by
    have hufilt : relUnique (removeRelRow s.relationships j) :=
      List.Pairwise.sublist (List.filter_sublist _) hu
    unfold relUnique
    rw [List.pairwise_map]
    refine List.Pairwise.imp_of_mem (fun {x y} hxm hym hnot hsame => ?_) hufilt
    obtain ⟨hxs, hxj⟩ := hfilt_decomp x hxm
    obtain ⟨hys, hyj⟩ := hfilt_decomp y hym
    by_cases hxi : x.id = i <;> by_cases hyi : y.id = i
    · exact hnot (hinj hxs hys (by rw [hxi, hyi]) ▸ ⟨rfl, rfl, rfl⟩)
    · have hxr : x = ⟨i, a, b, t⟩ := hinj hxs hrow hxi
      rw [if_pos hxi, if_neg hyi] at hsame
      rw [hxr] at hsame
      have hy' : y.from_person_id = a ∧ y.to_person_id = b := by
        obtain ⟨h1, h2, h3⟩ := hsame
        exact ⟨h1.symm, h2.symm⟩
      rcases honly y hys (Or.inl hy') with hcase | hcase
      · exact hyi (by rw [hcase])
      · exact hyj (by rw [hcase])
    · have hyr : y = ⟨i, a, b, t⟩ := hinj hys hrow hyi
      rw [if_neg hxi, if_pos hyi] at hsame
      rw [hyr] at hsame
      obtain ⟨h1, h2, h3⟩ := hsame
      rcases honly x hxs (Or.inl ⟨h1, h2⟩) with hcase | hcase
      · exact hxi (by rw [hcase])
      · exact hxj (by rw [hcase])
    · rw [if_neg hxi, if_neg hyi] at hsame
      exact hnot hsame
  -- the new mirror of the new type is absent after the retype
  have hnone2 : findRelRow ((removeRelRow s.relationships j).map
      (fun r => if r.id = i then { r with type := t' } else r)) b a
      (reciprocal t') = none := by
    refine findRelRow_eq_none_iff.mpr (fun r hr hc => ?_)
    obtain ⟨x, hxm, hfx⟩ := List.mem_map.mp hr
    obtain ⟨hxs, hxj⟩ := hfilt_decomp x hxm
    have hx' : x.from_person_id = b ∧ x.to_person_id = a := by
      by_cases hxi : x.id = i
      · rw [if_pos hxi] at hfx
        rw [← hfx] at hc
        exact ⟨hc.1, hc.2.1⟩
      · rw [if_neg hxi] at hfx
        rw [← hfx] at hc
        exact ⟨hc.1, hc.2.1⟩
    rcases honly x hxs (Or.inr hx') with hcase | hcase
    · rw [hcase] at hx'
      exact hab (show a = b from hx'.1)
    · exact hxj (by rw [hcase])
  have hu4 : relUnique ((removeRelRow s.relationships j).map
      (fun r => if r.id = i then { r with type := t' } else r) ++
        [⟨s.nextRelationshipId, b, a, reciprocal t'⟩]) := by
    refine relUnique_append_single hu3 (fun r hr hsame => ?_)
    exact findRelRow_eq_none_iff.mp hnone2 r hr ⟨hsame.1, hsame.2.1, hsame.2.2⟩
  have hupd : update_relationship s i t' =
      .ok ({ s with
          relationships := (removeRelRow s.relationships j).map
            (fun r => if r.id = i then { r with type := t' } else r) ++
              [⟨s.nextRelationshipId, b, a, reciprocal t'⟩],
          nextRelationshipId := s.nextRelationshipId + 1 },
        ⟨i, a, b, t'⟩) := by
    simp only [update_relationship, hfind]
    rw [if_neg htt]
    simp only [removeReciprocal, hfindm]
    rw [flushRels_of_unique
      { s with relationships := (removeRelRow s.relationships j).map (fun r => if r.id = i then { r with type := t' } else r) } hu3]
    simp only [ensureReciprocal, hnone2]
    rw [flushRels_of_unique
      { s with
        relationships := (removeRelRow s.relationships j).map (fun r => if r.id = i then { r with type := t' } else r) ++ [⟨s.nextRelationshipId, b, a, reciprocal t'⟩],
        nextRelationshipId := s.nextRelationshipId + 1 } hu4]
  refine ⟨_, hupd, ?_⟩
  simp only [edgesBetween]
  rw [List.filter_append, List.filter_map]
  have hsingleton : (removeRelRow s.relationships j).filter
      ((fun r => decide ((r.from_person_id = a ∧ r.to_person_id = b) ∨
          (r.from_person_id = b ∧ r.to_person_id = a))) ∘
        (fun r => if r.id = i then { r with type := t' } else r)) =
      [⟨i, a, b, t⟩] := by
    have hndfilt : (removeRelRow s.relationships j).Nodup :=
      List.Nodup.sublist (List.filter_sublist _) (List.Nodup.of_map _ hids)
    refine filter_eq_singleton_of hndfilt hfiltmem (fun y hy => ?_)
    obtain ⟨hys, hyj⟩ := hfilt_decomp y hy
    constructor
    · intro hpy
      have hy' : (y.from_person_id = a ∧ y.to_person_id = b) ∨
          (y.from_person_id = b ∧ y.to_person_id = a) := by
        by_cases hyi : y.id = i
        · simpa [Function.comp, hyi] using hpy
        · simpa [Function.comp, hyi] using hpy
      rcases honly y hys hy' with hcase | hcase
      · exact hcase
      · exact absurd (by rw [hcase]) hyj
    · rintro rfl
      simp [Function.comp]
  rw [hsingleton]
  simp [edgesBetween]

/-- Witness for C2 (amended) on a clean parent pair updated to spouse. -/
theorem c2_witness :
    ∃ s',
      update_relationship parentPairStore 10 .spouse =
        .ok (s', ⟨10, 1, 2, .spouse⟩) ∧
      edgesBetween s'.relationships 1 2 =
        [⟨10, 1, 2, .spouse⟩, ⟨12, 2, 1, .spouse⟩] :=
  c2_update_symmetry_amended parentPairStore 10 11 1 2 .parent .spouse (by decide)
    (by decide) (by decide) (by decide) (by decide) (by decide) (by decide)

/-! ### Helper lemmas for the location-role reconciler -/

theorem findLocation_eq_none_iff {s : Store} {lid : Nat} :
    findLocation s lid = none ↔ lid ∉ s.locations.map (fun loc => loc.id) := by
  unfold findLocation
  rw [List.find?_eq_none]
  simp [List.mem_map]

theorem findLocation_eq_some {s : Store} {lid : Nat} {loc : Location}
    (h : findLocation s lid = some loc) : loc ∈ s.locations ∧ loc.id = lid := by
  refine ⟨List.mem_of_find?_eq_some h, ?_⟩
  have := List.find?_some h
  simpa using this

theorem lookupRole_append_single {byRole : List (Role × Nat)} {r r0 : Role} {i0 : Nat}
    (hne : r ≠ r0) : lookupRole (byRole ++ [(r0, i0)]) r = lookupRole byRole r := by
  unfold lookupRole
  rw [List.find?_append]
  cases hf : byRole.find? (fun pr => decide (pr.1 = r)) with
  | some pr => simp
  | none =>
      simp only [Option.or]
      have hsingle : ([(r0, i0)].find? (fun pr => decide (pr.1 = r))) = none := by
        simp [List.find?, hne.symm]
      rw [hsingle]

theorem lookupRole_some {byRole : List (Role × Nat)} {r : Role} {i : Nat}
    (h : lookupRole byRole r = some i) : (r, i) ∈ byRole := by
  unfold lookupRole at h
  obtain ⟨pr, hf, hsnd⟩ := Option.map_eq_some'.mp h
  have hfst : pr.1 = r := by simpa using List.find?_some hf
  have hmem := List.mem_of_find?_eq_some hf
  have : pr = (r, i) := by
    cases pr
    simp only at hfst hsnd
    rw [hfst, hsnd]
  rw [← this]
  exact hmem

theorem repoint_ids (links : List PersonLocation) (i c : Nat) :
    (repoint links i c).map (fun l => l.id) = links.map (fun l => l.id) := by
  unfold repoint
  rw [List.map_map]
  refine List.map_congr_left (fun l _ => ?_)
  by_cases hl : l.id = i <;> simp [hl]

theorem repoint_mem_of {links : List PersonLocation} {i c : Nat} {l : PersonLocation}
    (h : l ∈ links) (hne : l.id ≠ i) : l ∈ repoint links i c := by
  unfold repoint
  exact List.mem_map.mpr ⟨l, h, by simp [hne]⟩

theorem repoint_mem_hit {links : List PersonLocation} {i c : Nat} {l : PersonLocation}
    (h : l ∈ links) (hid : l.id = i) :
    ({ l with location_id := c } : PersonLocation) ∈ repoint links i c := by
  unfold repoint
  exact List.mem_map.mpr ⟨l, h, by simp [hid]⟩

theorem repoint_shape {links : List PersonLocation} {i c : Nat} {l' : PersonLocation}
    (h : l' ∈ repoint links i c) :
    ∃ l ∈ links, l'.id = l.id ∧ l'.person_id = l.person_id ∧ l'.role = l.role := by
  unfold repoint at h
  obtain ⟨l, hl, hfl⟩ := List.mem_map.mp h
  by_cases hid : l.id = i
  · rw [if_pos hid] at hfl
    exact ⟨l, hl, by rw [← hfl], by rw [← hfl], by rw [← hfl]⟩
  · rw [if_neg hid] at hfl
    exact ⟨l, hl, by rw [← hfl], by rw [← hfl], by rw [← hfl]⟩

/-- The role-to-row dictionary is consistent with the link table for every
role in `R`: a hit names a link row of the person with that role, a miss
means the person has no link with that role. -/
def byRoleOK (s : Store) (pid : Nat) (byRole : List (Role × Nat)) (R : List Role) : Prop :=
  ∀ r ∈ R,
    (∀ i, lookupRole byRole r = some i →
      ∃ l ∈ s.person_locations, l.id = i ∧ l.person_id = pid ∧ l.role = r) ∧
    (lookupRole byRole r = none →
      ∀ l ∈ s.person_locations, l.person_id = pid → l.role ≠ r)

/-- Transfer of target resolution along a later store whose location list
only grew. -/
theorem targetResolved_mono {s0 s1 : Store} {t : LocationRef} {locId : Nat} {s' : Store}
    (h : targetResolved s1 t locId s') (hle : s0.nextLocationId ≤ s1.nextLocationId) :
    targetResolved s0 t locId s' := by
  cases t with
  | existing lid => exact h
  | inline d => exact ⟨le_trans hle h.1, h.2⟩

theorem applyLoop_dangling (pid : Nat) (asgs : List Assignment) :
    ∀ (s : Store) (byRole : List (Role × Nat)),
      locIdsBounded s →
      (∃ a ∈ asgs, ∃ lid, a.target = .existing lid ∧
        lid ∉ s.locations.map (fun loc => loc.id) ∧ lid < s.nextLocationId) →
      ∃ lid', (applyLoop pid s byRole asgs).1 = some (.locationNotFound lid') ∧
        lid' ∉ s.locations.map (fun loc => loc.id) ∧
        ∃ a ∈ asgs, a.target = .existing lid' := by
  induction asgs with
  | nil =>
      intro s byRole _ hd
      obtain ⟨a, ha, _⟩ := hd
      cases ha
  | cons a rest ih =>
      intro s byRole hbound hd
      obtain ⟨a0, ha0, lid0, htar0, hnot0, hlt0⟩ := hd
      cases hat : a.target with
      | existing lid =>
          cases hf : findLocation s lid with
          | none =>
              refine ⟨lid, ?_, findLocation_eq_none_iff.mp hf,
                a, List.mem_cons_self _ _, hat⟩
              simp only [applyLoop, hat, resolveTarget, hf]
          | some loc =>
              obtain ⟨hlocmem, hlocid⟩ := findLocation_eq_some hf
              have ha0rest : a0 ∈ rest := by
                rcases List.mem_cons.mp ha0 with rfl | h0
                · exfalso
                  rw [hat] at htar0
                  injection htar0 with hlid
                  exact hnot0 (hlid ▸ List.mem_map.mpr ⟨loc, hlocmem, hlocid⟩)
                · exact h0
              cases hlk : lookupRole byRole a.role with
              | none =>
                  obtain ⟨lid', h1, h2, a', ha', htar'⟩ := ih
                    { s with
                      person_locations := s.person_locations ++ [⟨s.nextLinkId, pid, loc.id, a.role⟩],
                      nextLinkId := s.nextLinkId + 1 }
                    (byRole ++ [(a.role, s.nextLinkId)]) hbound
                    ⟨a0, ha0rest, lid0, htar0, hnot0, hlt0⟩
                  refine ⟨lid', ?_, h2, a', List.mem_cons_of_mem _ ha', htar'⟩
                  simp only [applyLoop, hat, resolveTarget, hf, hlk]
                  exact h1
              | some linkId =>
                  obtain ⟨lid', h1, h2, a', ha', htar'⟩ := ih
                    { s with person_locations := repoint s.person_locations linkId loc.id }
                    byRole hbound ⟨a0, ha0rest, lid0, htar0, hnot0, hlt0⟩
                  refine ⟨lid', ?_, h2, a', List.mem_cons_of_mem _ ha', htar'⟩
                  simp only [applyLoop, hat, resolveTarget, hf, hlk]
                  exact h1
      | inline d =>
          have ha0rest : a0 ∈ rest := by
            rcases List.mem_cons.mp ha0 with rfl | h0
            · rw [hat] at htar0; cases htar0
            · exact h0
          have hbound1 : ∀ loc ∈ s.locations ++ [(⟨s.nextLocationId, d⟩ : Location)],
              loc.id < s.nextLocationId + 1 := by
            intro loc hloc
            rcases List.mem_append.mp hloc with hold | hnew
            · exact Nat.lt_succ_of_lt (hbound loc hold)
            · have : loc = ⟨s.nextLocationId, d⟩ := by simpa using hnew
              rw [this]
              exact Nat.lt_succ_self _
          have hnot1 : lid0 ∉ (s.locations ++ [(⟨s.nextLocationId, d⟩ : Location)]).map
              (fun loc => loc.id) := by
            rw [List.map_append]
            intro hmem
            rcases List.mem_append.mp hmem with hold | hnew
            · exact hnot0 hold
            · have : lid0 = s.nextLocationId := by simpa using hnew
              exact absurd this (Nat.ne_of_lt hlt0)
          have hsub : ∀ x, x ∈ s.locations.map (fun loc => loc.id) →
              x ∈ (s.locations ++ [(⟨s.nextLocationId, d⟩ : Location)]).map
                (fun loc => loc.id) := by
            intro x hx
            rw [List.map_append]
            exact List.mem_append_left _ hx
          cases hlk : lookupRole byRole a.role with
          | none =>
              obtain ⟨lid', h1, h2, a', ha', htar'⟩ := ih
                { s with
                  locations := s.locations ++ [⟨s.nextLocationId, d⟩],
                  nextLocationId := s.nextLocationId + 1,
                  person_locations := s.person_locations ++ [⟨s.nextLinkId, pid, s.nextLocationId, a.role⟩],
                  nextLinkId := s.nextLinkId + 1 }
                (byRole ++ [(a.role, s.nextLinkId)]) hbound1
                ⟨a0, ha0rest, lid0, htar0, hnot1, Nat.lt_succ_of_lt hlt0⟩
              refine ⟨lid', ?_, fun hmem => h2 (hsub _ hmem),
                a', List.mem_cons_of_mem _ ha', htar'⟩
              simp only [applyLoop, hat, resolveTarget, hlk]
              exact h1
          | some linkId =>
              obtain ⟨lid', h1, h2, a', ha', htar'⟩ := ih
                { s with
                  locations := s.locations ++ [⟨s.nextLocationId, d⟩],
                  nextLocationId := s.nextLocationId + 1,
                  person_locations := repoint s.person_locations linkId s.nextLocationId }
                byRole hbound1
                ⟨a0, ha0rest, lid0, htar0, hnot1, Nat.lt_succ_of_lt hlt0⟩
              refine ⟨lid', ?_, fun hmem => h2 (hsub _ hmem),
                a', List.mem_cons_of_mem _ ha', htar'⟩
              simp only [applyLoop, hat, resolveTarget, hlk]
              exact h1

/-- C4: an assignment list (without duplicate roles) that references a
location identifier not resolving to an existing row makes the reconciler
fail with `LocationNotFoundError` naming an unresolvable referenced
identifier, and the committed store equals the pre-call store: the partial
session mutations are rolled back, never committed. -/
theorem c4_location_not_found_atomic (s : Store) (pid : Nat) (asgs : List Assignment)
    (lid : Nat)
    (hbound : locIdsBounded s)
    (hnd : (asgs.map (fun a => a.role)).Nodup)
    (hdang : ∃ a ∈ asgs, a.target = .existing lid)
    (hnotin : lid ∉ s.locations.map (fun loc => loc.id))
    (hlt : lid < s.nextLocationId) :
    ∃ lid', applyLocationsRun s pid asgs = (some (.locationNotFound lid'), s) ∧
      lid' ∉ s.locations.map (fun loc => loc.id) ∧
      ∃ a ∈ asgs, a.target = .existing lid' := by
  obtain ⟨a0, ha0, htar0⟩ := hdang
  have hscan : seenScan [] asgs = none := (seenScan_none_iff asgs).mpr hnd
  obtain ⟨lid', h1, h2, a', ha', htar'⟩ := applyLoop_dangling pid asgs
    { s with person_locations := s.person_locations.filter (fun l => decide (l.person_id ≠ pid ∨ l.role ∈ asgs.map (fun a => a.role))) }
    (byRoleOf s pid) hbound ⟨a0, ha0, lid, htar0, hnotin, hlt⟩
  refine ⟨lid', ?_, h2, a', ha', htar'⟩
  unfold applyLocationsRun apply_person_locations
  rw [hscan]
  simp only []
  cases hloop : applyLoop pid
      { s with person_locations := s.person_locations.filter (fun l => decide (l.person_id ≠ pid ∨ l.role ∈ asgs.map (fun a => a.role))) }
      (byRoleOf s pid) asgs with
  | mk e s2 =>
      rw [hloop] at h1
      simp only at h1
      rw [h1]

/-- A concrete store with one location (id 0) and an allocation counter of 6,
so identifier 5 is unresolvable. -/
def dangleStore : Store :=
  ⟨[], [⟨1, "a", "b", none, none, none, none⟩], [⟨0, ⟨"x", none, none, none, none⟩⟩],
    [], [], 0, 2, 6, 0, 0⟩

/-- Witness for C4 at a concrete dangling identifier. -/
theorem c4_witness :
    ∃ lid', applyLocationsRun dangleStore 1 [⟨.residence, .existing 5⟩] =
        (some (.locationNotFound lid'), dangleStore) ∧
      lid' ∉ dangleStore.locations.map (fun loc => loc.id) ∧
      ∃ a ∈ [(⟨.residence, .existing 5⟩ : Assignment)], a.target = .existing lid' :=
  c4_location_not_found_atomic dangleStore 1 [⟨.residence, .existing 5⟩] 5
    (by unfold locIdsBounded dangleStore; decide)
    (by decide) ⟨⟨.residence, .existing 5⟩, by decide, rfl⟩ (by decide) (by decide)

theorem ids_nodup_append_new {links : List PersonLocation} {n : Nat} {l0 : PersonLocation}
    (hnd : (links.map (fun l => l.id)).Nodup) (hbd : ∀ l ∈ links, l.id < n)
    (hl0 : l0.id = n) : ((links ++ [l0]).map (fun l => l.id)).Nodup := by
  rw [List.map_append, List.nodup_append]
  refine ⟨hnd, by simp, ?_⟩
  intro x hx hx'
  obtain ⟨l, hl, hlx⟩ := List.mem_map.mp hx
  have hxn : x = n := by simpa [hl0] using hx'
  rw [← hlx] at hxn
  exact absurd hxn (Nat.ne_of_lt (hbd l hl))

theorem rolesUnique_repoint {links : List PersonLocation} {i c : Nat}
    (h : links.Pairwise (fun x y => x.person_id = y.person_id → x.role ≠ y.role)) :
    (repoint links i c).Pairwise (fun x y => x.person_id = y.person_id → x.role ≠ y.role) := by
  unfold repoint
  rw [List.pairwise_map]
  refine h.imp_of_mem (fun {x y} hx hy hxy => ?_)
  by_cases hxi : x.id = i <;> by_cases hyi : y.id = i <;>
    simp only [if_pos, if_neg, hxi, hyi, ite_true, ite_false] <;>
    exact hxy

theorem repoint_preserves_witness {links : List PersonLocation} {i c : Nat}
    {l : PersonLocation} (h : l ∈ links) :
    ∃ l' ∈ repoint links i c, l'.id = l.id ∧ l'.person_id = l.person_id ∧
      l'.role = l.role := by
  by_cases hid : l.id = i
  · exact ⟨{ l with location_id := c }, repoint_mem_hit h hid, rfl, rfl, rfl⟩
  · exact ⟨l, repoint_mem_of h hid, rfl, rfl, rfl⟩

theorem byRoleOf_some {s : Store} {pid : Nat} {r : Role} {i : Nat}
    (h : lookupRole (byRoleOf s pid) r = some i) :
    ∃ l ∈ s.person_locations, l.id = i ∧ l.person_id = pid ∧ l.role = r := by
  have hmem := lookupRole_some h
  unfold byRoleOf at hmem
  obtain ⟨l, hl, hpair⟩ := List.mem_map.mp hmem
  have hfil := List.mem_filter.mp hl
  have hrole : l.role = r := congrArg Prod.fst hpair
  have hid : l.id = i := congrArg Prod.snd hpair
  exact ⟨l, hfil.1, hid, by simpa using hfil.2, hrole⟩

theorem byRoleOf_none {s : Store} {pid : Nat} {r : Role}
    (h : lookupRole (byRoleOf s pid) r = none) :
    ∀ l ∈ s.person_locations, l.person_id = pid → l.role ≠ r := by
  intro l hl hperson hrole
  unfold lookupRole at h
  have hfind := Option.map_eq_none'.mp h
  have hmem : ((l.role, l.id) : Role × Nat) ∈ byRoleOf s pid := by
    unfold byRoleOf
    exact List.mem_map.mpr ⟨l, List.mem_filter.mpr ⟨hl, by simp [hperson]⟩, rfl⟩
  have := List.find?_eq_none.mp hfind _ hmem
  simp [hrole] at this

/-- What a successful run of the assignment loop guarantees, relating the
final store `s'` to the starting store `s`. -/
structure LoopOut (pid : Nat) (asgs : List Assignment) (s s' : Store) : Prop where
  locext : ∃ extra, s'.locations = s.locations ++ extra
  locmono : s.nextLocationId ≤ s'.nextLocationId
  people : s'.people = s.people
  idsnd : (s'.person_locations.map (fun l => l.id)).Nodup
  idsbd : ∀ l ∈ s'.person_locations, l.id < s'.nextLinkId
  rolesu : s'.person_locations.Pairwise (fun x y => x.person_id = y.person_id → x.role ≠ y.role)
  exonly : (∀ a ∈ asgs, ∃ lid, a.target = .existing lid) →
    s'.locations = s.locations ∧ s'.nextLocationId = s.nextLocationId
  links : ∀ a ∈ asgs, ∃ l ∈ s'.person_locations, l.person_id = pid ∧ l.role = a.role ∧
    targetResolved s a.target l.location_id s'
  keep : ∀ l ∈ s.person_locations, (l.person_id = pid → l.role ∉ asgs.map (fun a => a.role)) →
    l ∈ s'.person_locations
  noNew : ∀ l' ∈ s'.person_locations, l'.person_id = pid →
    l'.role ∈ asgs.map (fun a => a.role) ∨
      ∃ l ∈ s.person_locations, l.person_id = pid ∧ l.role = l'.role

theorem applyLoop_sound (pid : Nat) (asgs : List Assignment) :
    ∀ (s : Store) (byRole : List (Role × Nat)),
      (s.person_locations.map (fun l => l.id)).Nodup →
      (∀ l ∈ s.person_locations, l.id < s.nextLinkId) →
      s.person_locations.Pairwise (fun x y => x.person_id = y.person_id → x.role ≠ y.role) →
      byRoleOK s pid byRole (asgs.map (fun a => a.role)) →
      (∀ a ∈ asgs, ∀ lid, a.target = .existing lid →
        lid ∈ s.locations.map (fun loc => loc.id)) →
      (asgs.map (fun a => a.role)).Nodup →
      ∃ s', applyLoop pid s byRole asgs = (none, s') ∧ LoopOut pid asgs s s' := by
  induction asgs with
  | nil =>
      intro s byRole hnd hbd hru _ _ _
      refine ⟨s, rfl, ?_⟩
      refine ⟨⟨[], (List.append_nil _).symm⟩, le_refl _, rfl, hnd, hbd, hru,
        fun _ => ⟨rfl, rfl⟩, fun a ha => absurd ha (List.not_mem_nil a),
        fun l hl _ => hl, fun l' hl' hp => Or.inr ⟨l', hl', hp, rfl⟩⟩
  | cons a rest ih =>
      intro s byRole hnd hbd hru hok hex hndr
      rw [List.map_cons, List.nodup_cons] at hndr
      obtain ⟨hanotin, hndrest⟩ := hndr
      have haR : a.role ∈ (a :: rest).map (fun a => a.role) := by
        rw [List.map_cons]; exact List.mem_cons_self _ _
      cases hat : a.target with
      | existing lid =>
          have hlid := hex a (List.mem_cons_self _ _) lid hat
          cases hf : findLocation s lid with
          | none => exact absurd hlid (findLocation_eq_none_iff.mp hf)
          | some loc₂ =>
              obtain ⟨hlocmem, hlocid⟩ := findLocation_eq_some hf
              cases hlk : lookupRole byRole a.role with
              | none =>
                  -- create a new link for this role
                  have hfresh : ∀ l ∈ s.person_locations, l.person_id = pid →
                      l.role ≠ a.role := (hok a.role haR).2 hlk
                  have hnd2 : (((s.person_locations ++
                      [(⟨s.nextLinkId, pid, loc₂.id, a.role⟩ : PersonLocation)]).map (fun l => l.id)).Nodup) :=
                    ids_nodup_append_new hnd hbd rfl
                  have hbd2 : ∀ l ∈ s.person_locations ++
                      [(⟨s.nextLinkId, pid, loc₂.id, a.role⟩ : PersonLocation)],
                      l.id < s.nextLinkId + 1 := by
                    intro l hl
                    rcases List.mem_append.mp hl with hold | hnew
                    · exact Nat.lt_succ_of_lt (hbd l hold)
                    · have : l = ⟨s.nextLinkId, pid, loc₂.id, a.role⟩ := by simpa using hnew
                      rw [this]; exact Nat.lt_succ_self _
                  have hru2 : (s.person_locations ++
                      [(⟨s.nextLinkId, pid, loc₂.id, a.role⟩ : PersonLocation)]).Pairwise
                      (fun x y => x.person_id = y.person_id → x.role ≠ y.role) := by
                    rw [List.pairwise_append]
                    refine ⟨hru, by simp, ?_⟩
                    intro x hx y hy
                    have : y = ⟨s.nextLinkId, pid, loc₂.id, a.role⟩ := by simpa using hy
                    rw [this]
                    intro hp
                    exact hfresh x hx hp
                  have hok2 : byRoleOK
                      { s with
                        person_locations := s.person_locations ++ [⟨s.nextLinkId, pid, loc₂.id, a.role⟩],
                        nextLinkId := s.nextLinkId + 1 }
                      pid (byRole ++ [(a.role, s.nextLinkId)])
                      (rest.map (fun a => a.role)) := by
                    intro r hr
                    have hrne : r ≠ a.role := fun he => hanotin (he ▸ hr)
                    constructor
                    · intro i hi
                      rw [lookupRole_append_single hrne] at hi
                      obtain ⟨l, hl, hid, hp, hro⟩ :=
                        (hok r (by rw [List.map_cons]; exact List.mem_cons_of_mem _ hr)).1 i hi
                      exact ⟨l, List.mem_append_left _ hl, hid, hp, hro⟩
                    · intro hnone l hl hp
                      rw [lookupRole_append_single hrne] at hnone
                      rcases List.mem_append.mp hl with hold | hnew
                      · exact (hok r (by rw [List.map_cons]; exact List.mem_cons_of_mem _ hr)).2
                          hnone l hold hp
                      · have : l = ⟨s.nextLinkId, pid, loc₂.id, a.role⟩ := by simpa using hnew
                        rw [this]
                        exact Ne.symm hrne
                  have hex2 : ∀ a' ∈ rest, ∀ lid', a'.target = .existing lid' →
                      lid' ∈ s.locations.map (fun loc => loc.id) :=
                    fun a' ha' lid' h => hex a' (List.mem_cons_of_mem _ ha') lid' h
                  obtain ⟨s', heq, out⟩ := ih
                    { s with
                      person_locations := s.person_locations ++ [⟨s.nextLinkId, pid, loc₂.id, a.role⟩],
                      nextLinkId := s.nextLinkId + 1 }
                    (byRole ++ [(a.role, s.nextLinkId)]) hnd2 hbd2 hru2 hok2 hex2 hndrest
                  refine ⟨s', ?_, ?_⟩
                  · simp only [applyLoop, hat, resolveTarget, hf, hlk]
                    exact heq
                  · have hnewmem : (⟨s.nextLinkId, pid, loc₂.id, a.role⟩ : PersonLocation) ∈
                        s.person_locations ++ [⟨s.nextLinkId, pid, loc₂.id, a.role⟩] :=
                      List.mem_append_right _ (by simp)
                    have hnewpersist : (⟨s.nextLinkId, pid, loc₂.id, a.role⟩ : PersonLocation) ∈
                        s'.person_locations :=
                      out.keep _ hnewmem (fun _ => hanotin)
                    refine ⟨out.locext, out.locmono, out.people, out.idsnd, out.idsbd,
                      out.rolesu, ?_, ?_, ?_, ?_⟩
                    · intro hall
                      exact out.exonly (fun a' ha' => hall a' (List.mem_cons_of_mem _ ha'))
                    · intro a' ha'
                      rcases List.mem_cons.mp ha' with rfl | ha''
                      · refine ⟨⟨s.nextLinkId, pid, loc₂.id, a'.role⟩, hnewpersist, rfl, rfl, ?_⟩
                        rw [hat]
                        exact hlocid
                      · obtain ⟨l, hl, hp, hro, htr⟩ := out.links a' ha''
                        exact ⟨l, hl, hp, hro, targetResolved_mono htr (le_refl _)⟩
                    · intro l hl hprem
                      refine out.keep l (List.mem_append_left _ hl) (fun hp hin => ?_)
                      exact hprem hp (by rw [List.map_cons]; exact List.mem_cons_of_mem _ hin)
                    · intro l' hl' hp
                      rcases out.noNew l' hl' hp with hin | ⟨l, hl, hlp, hlr⟩
                      · exact Or.inl (by rw [List.map_cons]; exact List.mem_cons_of_mem _ hin)
                      · rcases List.mem_append.mp hl with hold | hnew
                        · exact Or.inr ⟨l, hold, hlp, hlr⟩
                        · have : l = ⟨s.nextLinkId, pid, loc₂.id, a.role⟩ := by simpa using hnew
                          rw [this] at hlr
                          exact Or.inl (by rw [List.map_cons, ← hlr]; exact List.mem_cons_self _ _)
              | some linkId =>
                  -- re-point the existing link for this role
                  obtain ⟨l₀, hl₀, hl₀id, hl₀p, hl₀r⟩ := (hok a.role haR).1 linkId hlk
                  have hnd2 : ((repoint s.person_locations linkId loc₂.id).map
                      (fun l => l.id)).Nodup := by rw [repoint_ids]; exact hnd
                  have hbd2 : ∀ l ∈ repoint s.person_locations linkId loc₂.id,
                      l.id < s.nextLinkId := by
                    intro l hl
                    obtain ⟨l₁, hl₁, hid, _, _⟩ := repoint_shape hl
                    rw [hid]
                    exact hbd l₁ hl₁
                  have hru2 := rolesUnique_repoint (i := linkId) (c := loc₂.id) hru
                  have hok2 : byRoleOK
                      { s with person_locations := repoint s.person_locations linkId loc₂.id }
                      pid byRole (rest.map (fun a => a.role)) := by
                    intro r hr
                    constructor
                    · intro i hi
                      obtain ⟨l, hl, hid, hp, hro⟩ :=
                        (hok r (by rw [List.map_cons]; exact List.mem_cons_of_mem _ hr)).1 i hi
                      obtain ⟨l', hl', h1, h2, h3⟩ := repoint_preserves_witness
                        (i := linkId) (c := loc₂.id) hl
                      exact ⟨l', hl', h1.trans hid, h2.trans hp, h3.trans hro⟩
                    · intro hnone l hl hp
                      obtain ⟨l₁, hl₁, _, hpe, hre⟩ := repoint_shape hl
                      rw [hre]
                      exact (hok r (by rw [List.map_cons]; exact List.mem_cons_of_mem _ hr)).2
                        hnone l₁ hl₁ (hpe ▸ hp)
                  have hex2 : ∀ a' ∈ rest, ∀ lid', a'.target = .existing lid' →
                      lid' ∈ s.locations.map (fun loc => loc.id) :=
                    fun a' ha' lid' h => hex a' (List.mem_cons_of_mem _ ha') lid' h
                  obtain ⟨s', heq, out⟩ := ih
                    { s with person_locations := repoint s.person_locations linkId loc₂.id }
                    byRole hnd2 hbd2 hru2 hok2 hex2 hndrest
                  refine ⟨s', ?_, ?_⟩
                  · simp only [applyLoop, hat, resolveTarget, hf, hlk]
                    exact heq
                  · have hhit : ({ l₀ with location_id := loc₂.id } : PersonLocation) ∈
                        repoint s.person_locations linkId loc₂.id :=
                      repoint_mem_hit hl₀ hl₀id
                    have hhitpersist : ({ l₀ with location_id := loc₂.id } : PersonLocation) ∈
                        s'.person_locations :=
                      out.keep _ hhit (fun _ hin => hanotin (by simpa [hl₀r] using hin))
                    refine ⟨out.locext, out.locmono, out.people, out.idsnd, out.idsbd,
                      out.rolesu, ?_, ?_, ?_, ?_⟩
                    · intro hall
                      exact out.exonly (fun a' ha' => hall a' (List.mem_cons_of_mem _ ha'))
                    · intro a' ha'
                      rcases List.mem_cons.mp ha' with rfl | ha''
                      · refine ⟨{ l₀ with location_id := loc₂.id }, hhitpersist,
                          hl₀p, hl₀r, ?_⟩
                        rw [hat]
                        exact hlocid
                      · obtain ⟨l, hl, hp, hro, htr⟩ := out.links a' ha''
                        exact ⟨l, hl, hp, hro, targetResolved_mono htr (le_refl _)⟩
                    · intro l hl hprem
                      have hlne : l.id ≠ linkId := by
                        intro he
                        have : l = l₀ := List.inj_on_of_nodup_map hnd hl hl₀ (he.trans hl₀id.symm)
                        rw [this] at hprem
                        exact hprem hl₀p (by rw [List.map_cons, hl₀r]; exact List.mem_cons_self _ _)
                      refine out.keep l (repoint_mem_of hl hlne) (fun hp hin => ?_)
                      exact hprem hp (by rw [List.map_cons]; exact List.mem_cons_of_mem _ hin)
                    · intro l' hl' hp
                      rcases out.noNew l' hl' hp with hin | ⟨l, hl, hlp, hlr⟩
                      · exact Or.inl (by rw [List.map_cons]; exact List.mem_cons_of_mem _ hin)
                      · obtain ⟨l₁, hl₁, _, hpe, hre⟩ := repoint_shape hl
                        exact Or.inr ⟨l₁, hl₁, hpe ▸ hlp, hre ▸ hlr⟩
      | inline d =>
          have hsub : ∀ x, x ∈ s.locations.map (fun loc => loc.id) →
              x ∈ (s.locations ++ [(⟨s.nextLocationId, d⟩ : Location)]).map
                (fun loc => loc.id) := by
            intro x hx
            rw [List.map_append]
            exact List.mem_append_left _ hx
          have hex1 : ∀ a' ∈ rest, ∀ lid', a'.target = .existing lid' →
              lid' ∈ ((s.locations ++ [(⟨s.nextLocationId, d⟩ : Location)]).map
                (fun loc => loc.id)) :=
            fun a' ha' lid' h => hsub _ (hex a' (List.mem_cons_of_mem _ ha') lid' h)
          have hheadnotex : ¬ ∃ lid', a.target = .existing lid' := by
            rintro ⟨lid', h⟩
            rw [hat] at h
            cases h
          cases hlk : lookupRole byRole a.role with
          | none =>
              have hfresh : ∀ l ∈ s.person_locations, l.person_id = pid →
                  l.role ≠ a.role := (hok a.role haR).2 hlk
              have hnd2 : (((s.person_locations ++
                  [(⟨s.nextLinkId, pid, s.nextLocationId, a.role⟩ : PersonLocation)]).map (fun l => l.id)).Nodup) :=
                ids_nodup_append_new hnd hbd rfl
              have hbd2 : ∀ l ∈ s.person_locations ++
                  [(⟨s.nextLinkId, pid, s.nextLocationId, a.role⟩ : PersonLocation)],
                  l.id < s.nextLinkId + 1 := by
                intro l hl
                rcases List.mem_append.mp hl with hold | hnew
                · exact Nat.lt_succ_of_lt (hbd l hold)
                · have : l = ⟨s.nextLinkId, pid, s.nextLocationId, a.role⟩ := by simpa using hnew
                  rw [this]; exact Nat.lt_succ_self _
              have hru2 : (s.person_locations ++
                  [(⟨s.nextLinkId, pid, s.nextLocationId, a.role⟩ : PersonLocation)]).Pairwise
                  (fun x y => x.person_id = y.person_id → x.role ≠ y.role) := by
                rw [List.pairwise_append]
                refine ⟨hru, by simp, ?_⟩
                intro x hx y hy
                have : y = ⟨s.nextLinkId, pid, s.nextLocationId, a.role⟩ := by simpa using hy
                rw [this]
                intro hp
                exact hfresh x hx hp
              have hok2 : byRoleOK
                  { s with
                    locations := s.locations ++ [⟨s.nextLocationId, d⟩],
                    nextLocationId := s.nextLocationId + 1,
                    person_locations := s.person_locations ++ [⟨s.nextLinkId, pid, s.nextLocationId, a.role⟩],
                    nextLinkId := s.nextLinkId + 1 }
                  pid (byRole ++ [(a.role, s.nextLinkId)])
                  (rest.map (fun a => a.role)) := by
                intro r hr
                have hrne : r ≠ a.role := fun he => hanotin (he ▸ hr)
                constructor
                · intro i hi
                  rw [lookupRole_append_single hrne] at hi
                  obtain ⟨l, hl, hid, hp, hro⟩ :=
                    (hok r (by rw [List.map_cons]; exact List.mem_cons_of_mem _ hr)).1 i hi
                  exact ⟨l, List.mem_append_left _ hl, hid, hp, hro⟩
                · intro hnone l hl hp
                  rw [lookupRole_append_single hrne] at hnone
                  rcases List.mem_append.mp hl with hold | hnew
                  · exact (hok r (by rw [List.map_cons]; exact List.mem_cons_of_mem _ hr)).2
                      hnone l hold hp
                  · have : l = ⟨s.nextLinkId, pid, s.nextLocationId, a.role⟩ := by simpa using hnew
                    rw [this]
                    exact Ne.symm hrne
              obtain ⟨s', heq, out⟩ := ih
                { s with
                  locations := s.locations ++ [⟨s.nextLocationId, d⟩],
                  nextLocationId := s.nextLocationId + 1,
                  person_locations := s.person_locations ++ [⟨s.nextLinkId, pid, s.nextLocationId, a.role⟩],
                  nextLinkId := s.nextLinkId + 1 }
                (byRole ++ [(a.role, s.nextLinkId)]) hnd2 hbd2 hru2 hok2 hex1 hndrest
              refine ⟨s', ?_, ?_⟩
              · simp only [applyLoop, hat, resolveTarget, hlk]
                exact heq
              · have hnewmem : (⟨s.nextLinkId, pid, s.nextLocationId, a.role⟩ : PersonLocation) ∈
                    s.person_locations ++ [⟨s.nextLinkId, pid, s.nextLocationId, a.role⟩] :=
                  List.mem_append_right _ (by simp)
                have hnewpersist : (⟨s.nextLinkId, pid, s.nextLocationId, a.role⟩ : PersonLocation) ∈
                    s'.person_locations :=
                  out.keep _ hnewmem (fun _ => hanotin)
                obtain ⟨extra, hextra⟩ := out.locext
                refine ⟨⟨⟨s.nextLocationId, d⟩ :: extra, by rw [hextra]; simp⟩,
                  le_trans (Nat.le_succ _) out.locmono, out.people, out.idsnd, out.idsbd,
                  out.rolesu, ?_, ?_, ?_, ?_⟩
                · intro hall
                  exact absurd (hall a (List.mem_cons_self _ _)) hheadnotex
                · intro a' ha'
                  rcases List.mem_cons.mp ha' with rfl | ha''
                  · refine ⟨⟨s.nextLinkId, pid, s.nextLocationId, a'.role⟩, hnewpersist,
                      rfl, rfl, ?_⟩
                    rw [hat]
                    refine ⟨le_refl _, ?_⟩
                    rw [hextra]
                    exact List.mem_append_left _ (List.mem_append_right _ (by simp))
                  · obtain ⟨l, hl, hp, hro, htr⟩ := out.links a' ha''
                    exact ⟨l, hl, hp, hro, targetResolved_mono htr (Nat.le_succ _)⟩
                · intro l hl hprem
                  refine out.keep l (List.mem_append_left _ hl) (fun hp hin => ?_)
                  exact hprem hp (by rw [List.map_cons]; exact List.mem_cons_of_mem _ hin)
                · intro l' hl' hp
                  rcases out.noNew l' hl' hp with hin | ⟨l, hl, hlp, hlr⟩
                  · exact Or.inl (by rw [List.map_cons]; exact List.mem_cons_of_mem _ hin)
                  · rcases List.mem_append.mp hl with hold | hnew
                    · exact Or.inr ⟨l, hold, hlp, hlr⟩
                    · have : l = ⟨s.nextLinkId, pid, s.nextLocationId, a.role⟩ := by
                        simpa using hnew
                      rw [this] at hlr
                      exact Or.inl (by rw [List.map_cons, ← hlr]; exact List.mem_cons_self _ _)
          | some linkId =>
              obtain ⟨l₀, hl₀, hl₀id, hl₀p, hl₀r⟩ := (hok a.role haR).1 linkId hlk
              have hnd2 : ((repoint s.person_locations linkId s.nextLocationId).map
                  (fun l => l.id)).Nodup := by rw [repoint_ids]; exact hnd
              have hbd2 : ∀ l ∈ repoint s.person_locations linkId s.nextLocationId,
                  l.id < s.nextLinkId := by
                intro l hl
                obtain ⟨l₁, hl₁, hid, _, _⟩ := repoint_shape hl
                rw [hid]
                exact hbd l₁ hl₁
              have hru2 := rolesUnique_repoint (i := linkId) (c := s.nextLocationId) hru
              have hok2 : byRoleOK
                  { s with
                    locations := s.locations ++ [⟨s.nextLocationId, d⟩],
                    nextLocationId := s.nextLocationId + 1,
                    person_locations := repoint s.person_locations linkId s.nextLocationId }
                  pid byRole (rest.map (fun a => a.role)) := by
                intro r hr
                constructor
                · intro i hi
                  obtain ⟨l, hl, hid, hp, hro⟩ :=
                    (hok r (by rw [List.map_cons]; exact List.mem_cons_of_mem _ hr)).1 i hi
                  obtain ⟨l', hl', h1, h2, h3⟩ := repoint_preserves_witness
                    (i := linkId) (c := s.nextLocationId) hl
                  exact ⟨l', hl', h1.trans hid, h2.trans hp, h3.trans hro⟩
                · intro hnone l hl hp
                  obtain ⟨l₁, hl₁, _, hpe, hre⟩ := repoint_shape hl
                  rw [hre]
                  exact (hok r (by rw [List.map_cons]; exact List.mem_cons_of_mem _ hr)).2
                    hnone l₁ hl₁ (hpe ▸ hp)
              obtain ⟨s', heq, out⟩ := ih
                { s with
                  locations := s.locations ++ [⟨s.nextLocationId, d⟩],
                  nextLocationId := s.nextLocationId + 1,
                  person_locations := repoint s.person_locations linkId s.nextLocationId }
                byRole hnd2 hbd2 hru2 hok2 hex1 hndrest
              refine ⟨s', ?_, ?_⟩
              · simp only [applyLoop, hat, resolveTarget, hlk]
                exact heq
              · have hhit : ({ l₀ with location_id := s.nextLocationId } : PersonLocation) ∈
                    repoint s.person_locations linkId s.nextLocationId :=
                  repoint_mem_hit hl₀ hl₀id
                have hhitpersist : ({ l₀ with location_id := s.nextLocationId } : PersonLocation) ∈
                    s'.person_locations :=
                  out.keep _ hhit (fun _ hin => hanotin (by simpa [hl₀r] using hin))
                obtain ⟨extra, hextra⟩ := out.locext
                refine ⟨⟨⟨s.nextLocationId, d⟩ :: extra, by rw [hextra]; simp⟩,
                  le_trans (Nat.le_succ _) out.locmono, out.people, out.idsnd, out.idsbd,
                  out.rolesu, ?_, ?_, ?_, ?_⟩
                · intro hall
                  exact absurd (hall a (List.mem_cons_self _ _)) hheadnotex
                · intro a' ha'
                  rcases List.mem_cons.mp ha' with rfl | ha''
                  · refine ⟨{ l₀ with location_id := s.nextLocationId }, hhitpersist,
                      hl₀p, hl₀r, ?_⟩
                    rw [hat]
                    refine ⟨le_refl _, ?_⟩
                    rw [hextra]
                    exact List.mem_append_left _ (List.mem_append_right _ (by simp))
                  · obtain ⟨l, hl, hp, hro, htr⟩ := out.links a' ha''
                    exact ⟨l, hl, hp, hro, targetResolved_mono htr (Nat.le_succ _)⟩
                · intro l hl hprem
                  have hlne : l.id ≠ linkId := by
                    intro he
                    have : l = l₀ := List.inj_on_of_nodup_map hnd hl hl₀ (he.trans hl₀id.symm)
                    rw [this] at hprem
                    exact hprem hl₀p (by rw [List.map_cons, hl₀r]; exact List.mem_cons_self _ _)
                  refine out.keep l (repoint_mem_of hl hlne) (fun hp hin => ?_)
                  exact hprem hp (by rw [List.map_cons]; exact List.mem_cons_of_mem _ hin)
                · intro l' hl' hp
                  rcases out.noNew l' hl' hp with hin | ⟨l, hl, hlp, hlr⟩
                  · exact Or.inl (by rw [List.map_cons]; exact List.mem_cons_of_mem _ hin)
                  · obtain ⟨l₁, hl₁, _, hpe, hre⟩ := repoint_shape hl
                    exact Or.inr ⟨l₁, hl₁, hpe ▸ hlp, hre ▸ hlr⟩

theorem byRoleOK_byRoleOf (s : Store) (pid : Nat) (R : List Role) :
    byRoleOK s pid (byRoleOf s pid) R := by
  intro r hr
  exact ⟨fun i hi => byRoleOf_some hi, fun hnone => byRoleOf_none hnone⟩

theorem byRoleOK_after_deletion (s : Store) (pid : Nat) (asgs : List Assignment) :
    byRoleOK
      { s with person_locations := s.person_locations.filter (fun l => decide (l.person_id ≠ pid ∨ l.role ∈ asgs.map (fun a => a.role))) }
      pid (byRoleOf s pid) (asgs.map (fun a => a.role)) := by
  intro r hr
  constructor
  · intro i hi
    obtain ⟨l, hl, hid, hperson, hrole⟩ := byRoleOf_some hi
    refine ⟨l, ?_, hid, hperson, hrole⟩
    exact List.mem_filter.mpr ⟨hl, by simp [hrole, hr]⟩
  · intro hnone l hl hperson
    exact byRoleOf_none hnone l (List.mem_filter.mp hl).1 hperson

theorem apply_person_locations_sound (s : Store) (pid : Nat) (asgs : List Assignment)
    (hnd : (s.person_locations.map (fun l => l.id)).Nodup)
    (hbd : ∀ l ∈ s.person_locations, l.id < s.nextLinkId)
    (hru : s.person_locations.Pairwise (fun x y => x.person_id = y.person_id → x.role ≠ y.role))
    (hndr : (asgs.map (fun a => a.role)).Nodup)
    (hex : ∀ a ∈ asgs, ∀ lid, a.target = .existing lid →
      lid ∈ s.locations.map (fun loc => loc.id)) :
    ∃ s', apply_person_locations s pid asgs = (none, s') ∧
      (∃ extra, s'.locations = s.locations ++ extra) ∧
      s.nextLocationId ≤ s'.nextLocationId ∧
      s'.people = s.people ∧
      (s'.person_locations.map (fun l => l.id)).Nodup ∧
      (∀ l ∈ s'.person_locations, l.id < s'.nextLinkId) ∧
      s'.person_locations.Pairwise (fun x y => x.person_id = y.person_id → x.role ≠ y.role) ∧
      ((∀ a ∈ asgs, ∃ lid, a.target = .existing lid) →
        s'.locations = s.locations ∧ s'.nextLocationId = s.nextLocationId) ∧
      (∀ a ∈ asgs, ∃ l ∈ s'.person_locations, l.person_id = pid ∧ l.role = a.role ∧
        targetResolved s a.target l.location_id s') ∧
      (∀ l' ∈ s'.person_locations, l'.person_id = pid →
        l'.role ∈ asgs.map (fun a => a.role)) := by
  have hscan : seenScan [] asgs = none := (seenScan_none_iff asgs).mpr hndr
  have hsub : List.Sublist
      ((s.person_locations.filter (fun l => decide (l.person_id ≠ pid ∨ l.role ∈ asgs.map (fun a => a.role)))).map (fun l => l.id))
      (s.person_locations.map (fun l => l.id)) :=
    List.Sublist.map _ (List.filter_sublist _)
  have hnd1 := List.Nodup.sublist hsub hnd
  have hbd1 : ∀ l ∈ s.person_locations.filter (fun l => decide (l.person_id ≠ pid ∨ l.role ∈ asgs.map (fun a => a.role))),
      l.id < s.nextLinkId :=
    fun l hl => hbd l (List.mem_filter.mp hl).1
  have hru1 : (s.person_locations.filter (fun l => decide (l.person_id ≠ pid ∨ l.role ∈ asgs.map (fun a => a.role)))).Pairwise
      (fun x y => x.person_id = y.person_id → x.role ≠ y.role) :=
    List.Pairwise.sublist (List.filter_sublist _) hru
  obtain ⟨s', heq, out⟩ := applyLoop_sound pid asgs
    { s with person_locations := s.person_locations.filter (fun l => decide (l.person_id ≠ pid ∨ l.role ∈ asgs.map (fun a => a.role))) }
    (byRoleOf s pid) hnd1 hbd1 hru1 (byRoleOK_after_deletion s pid asgs) hex hndr
  refine ⟨s', ?_, out.locext, out.locmono, out.people, out.idsnd, out.idsbd, out.rolesu,
    out.exonly, out.links, ?_⟩
  · unfold apply_person_locations
    rw [hscan]
    exact heq
  · intro l' hl' hp
    rcases out.noNew l' hl' hp with hin | ⟨l, hl, hlp, hlr⟩
    · exact hin
    · have hcond := (List.mem_filter.mp hl).2
      rw [← hlr]
      have : ¬ l.person_id = pid ∨ l.role ∈ asgs.map (fun a => a.role) := by
        simpa using hcond
      rcases this with hne | hin
      · exact absurd hlp hne
      · exact hin

/-- C7: assignments may name the target by an existing identifier or by
inline data; the reconciler only ever appends to the `Location` table
(first conjunct, for every input, even failing ones), and on a successful
run every inline assignment has inserted a fresh `Location` row carrying
exactly the inline data, with the person's role linked to it. -/
theorem c7_inline_insert_never_delete (s : Store) (pid : Nat) (asgs : List Assignment) :
    (∃ extra, ((apply_person_locations s pid asgs).2).locations = s.locations ++ extra) ∧
    ((s.person_locations.map (fun l => l.id)).Nodup →
      (∀ l ∈ s.person_locations, l.id < s.nextLinkId) →
      s.person_locations.Pairwise (fun x y => x.person_id = y.person_id → x.role ≠ y.role) →
      locIdsBounded s →
      (asgs.map (fun a => a.role)).Nodup →
      (∀ a ∈ asgs, ∀ lid, a.target = .existing lid →
        lid ∈ s.locations.map (fun loc => loc.id)) →
      ∀ role d, (⟨role, .inline d⟩ : Assignment) ∈ asgs →
        ∃ s' locId, apply_person_locations s pid asgs = (none, s') ∧
          (⟨locId, d⟩ : Location) ∈ s'.locations ∧
          locId ∉ s.locations.map (fun loc => loc.id) ∧
          ∃ l ∈ s'.person_locations, l.person_id = pid ∧ l.role = role ∧
            l.location_id = locId) := by
  refine ⟨apply_person_locations_locations s pid asgs, ?_⟩
  intro hnd hbd hru hbound hndr hex role d hmem
  obtain ⟨s', heq, _, _, _, _, _, _, _, hlinks, _⟩ :=
    apply_person_locations_sound s pid asgs hnd hbd hru hndr hex
  obtain ⟨l, hl, hp, hro, htr⟩ := hlinks ⟨role, .inline d⟩ hmem
  have htr' : s.nextLocationId ≤ l.location_id ∧
      (⟨l.location_id, d⟩ : Location) ∈ s'.locations := htr
  refine ⟨s', l.location_id, heq, htr'.2, ?_, l, hl, hp, hro, rfl⟩
  intro hinmap
  obtain ⟨loc, hloc, hlocid⟩ := List.mem_map.mp hinmap
  have := hbound loc hloc
  rw [hlocid] at this
  exact absurd htr'.1 (Nat.not_le_of_lt this)

theorem applyLoop_id (pid : Nat) (asgs : List Assignment) (s : Store) :
    ∀ byRole : List (Role × Nat),
      (s.person_locations.map (fun l => l.id)).Nodup →
      s.person_locations.Pairwise (fun x y => x.person_id = y.person_id → x.role ≠ y.role) →
      byRoleOK s pid byRole (asgs.map (fun a => a.role)) →
      (∀ a ∈ asgs, ∃ lid, a.target = .existing lid ∧
        (∃ loc ∈ s.locations, loc.id = lid) ∧
        ∃ l ∈ s.person_locations, l.person_id = pid ∧ l.role = a.role ∧
          l.location_id = lid) →
      applyLoop pid s byRole asgs = (none, s) := by
  induction asgs with
  | nil => intro byRole _ _ _ _; rfl
  | cons a rest ih =>
      intro byRole hnd hru hok hall
      obtain ⟨lid, hat, ⟨loc, hlocmem, hlocid⟩, lw, hlw, hlwp, hlwr, hlwloc⟩ :=
        hall a (List.mem_cons_self _ _)
      cases hf : findLocation s lid with
      | none =>
          exact absurd (List.mem_map.mpr ⟨loc, hlocmem, hlocid⟩)
            (findLocation_eq_none_iff.mp hf)
      | some loc₂ =>
          obtain ⟨hloc₂mem, hloc₂id⟩ := findLocation_eq_some hf
          cases hlk : lookupRole byRole a.role with
          | none =>
              exact absurd hlwr
                ((hok a.role (by rw [List.map_cons]; exact List.mem_cons_self _ _)).2
                  hlk lw hlw hlwp)
          | some linkId =>
              obtain ⟨l₀, hl₀, hl₀id, hl₀p, hl₀r⟩ :=
                (hok a.role (by rw [List.map_cons]; exact List.mem_cons_self _ _)).1
                  linkId hlk
              have hsymm : Symmetric
                  (fun x y : PersonLocation => x.person_id = y.person_id → x.role ≠ y.role) := by
                intro x y h hp hr
                exact h hp.symm hr.symm
              have hl₀lw : l₀ = lw := by
                by_contra hne
                exact (List.Pairwise.forall hsymm hru hl₀ hlw hne)
                  (hl₀p.trans hlwp.symm) (hl₀r.trans hlwr.symm)
              have hrep : repoint s.person_locations linkId loc₂.id = s.person_locations := by
                unfold repoint
                have hmapid : ∀ l ∈ s.person_locations,
                    (if l.id = linkId then ({ l with location_id := loc₂.id } : PersonLocation) else l) = l := by
                  intro l hl
                  by_cases hli : l.id = linkId
                  · rw [if_pos hli]
                    have hll₀ : l = l₀ :=
                      List.inj_on_of_nodup_map hnd hl hl₀ (hli.trans hl₀id.symm)
                    have hlloc : l.location_id = loc₂.id := by
                      rw [hll₀, hl₀lw, hlwloc, hloc₂id]
                    rw [← hlloc]
                  · rw [if_neg hli]
                rw [List.map_congr_left hmapid, List.map_id']
              simp only [applyLoop, hat, resolveTarget, hf, hlk]
              have := ih byRole hnd hru
                (fun r hr => hok r (by rw [List.map_cons]; exact List.mem_cons_of_mem _ hr))
                (fun a' ha' => hall a' (List.mem_cons_of_mem _ ha'))
              calc applyLoop pid
                    { s with person_locations := repoint s.person_locations linkId loc₂.id }
                    byRole rest
                  = applyLoop pid { s with person_locations := s.person_locations }
                      byRole rest := by rw [hrep]
                _ = (none, s) := this

/-- C5, amended: the claim as stated fails for assignment lists with inline
location payloads (see the counterexample: the second call inserts a fresh
duplicate `Location` row and re-points the link).  Amended to assignment
lists that reference only existing location identifiers: then a successful
reconciliation is idempotent — the second identical call commits the very
same store, so the person's link set is unchanged, no duplicate link rows
appear and unrelated roles see no churn. -/
theorem c5_idempotent_amended (s : Store) (pid : Nat) (asgs : List Assignment)
    (hnd : (s.person_locations.map (fun l => l.id)).Nodup)
    (hbd : ∀ l ∈ s.person_locations, l.id < s.nextLinkId)
    (hru : s.person_locations.Pairwise (fun x y => x.person_id = y.person_id → x.role ≠ y.role))
    (hndr : (asgs.map (fun a => a.role)).Nodup)
    (hex : ∀ a ∈ asgs, ∃ lid, a.target = .existing lid ∧
      lid ∈ s.locations.map (fun loc => loc.id)) :
    ∃ s₁, applyLocationsRun s pid asgs = (none, s₁) ∧
      applyLocationsRun s₁ pid asgs = (none, s₁) := by
  have hex' : ∀ a ∈ asgs, ∀ lid, a.target = .existing lid →
      lid ∈ s.locations.map (fun loc => loc.id) := by
    intro a ha lid h
    obtain ⟨lid0, h0, hin0⟩ := hex a ha
    rw [h] at h0
    injection h0 with he
    rw [he]
    exact hin0
  obtain ⟨s₁, heq1, hlocext, hlocmono, hpeople, hnd1, hbd1, hru1, hexonly, hlinks, hroles⟩ :=
    apply_person_locations_sound s pid asgs hnd hbd hru hndr hex'
  obtain ⟨hloceq, -⟩ := hexonly (fun a ha => (hex a ha).imp (fun lid h => h.1))
  have hall : ∀ a ∈ asgs, ∃ lid, a.target = .existing lid ∧
      (∃ loc ∈ s₁.locations, loc.id = lid) ∧
      ∃ l ∈ s₁.person_locations, l.person_id = pid ∧ l.role = a.role ∧
        l.location_id = lid := by
    intro a ha
    obtain ⟨lid, htar, hin⟩ := hex a ha
    obtain ⟨l, hl, hp, hro, htr⟩ := hlinks a ha
    rw [htar] at htr
    refine ⟨lid, htar, ?_, l, hl, hp, hro, htr⟩
    rw [hloceq]
    exact List.mem_map.mp hin
  have hfil : s₁.person_locations.filter (fun l => decide (l.person_id ≠ pid ∨ l.role ∈ asgs.map (fun a => a.role))) = s₁.person_locations := by
    rw [List.filter_eq_self]
    intro l hl
    by_cases hp : l.person_id = pid
    · simp [hroles l hl hp]
    · simp [hp]
  have hid : applyLoop pid s₁ (byRoleOf s₁ pid) asgs = (none, s₁) :=
    applyLoop_id pid asgs s₁ (byRoleOf s₁ pid) hnd1 hru1 (byRoleOK_byRoleOf s₁ pid _) hall
  have h2 : apply_person_locations s₁ pid asgs = (none, s₁) := by
    unfold apply_person_locations
    rw [(seenScan_none_iff asgs).mpr hndr]
    show applyLoop pid
      { s₁ with person_locations := s₁.person_locations.filter (fun l => decide (l.person_id ≠ pid ∨ l.role ∈ asgs.map (fun a => a.role))) }
      (byRoleOf s₁ pid) asgs = (none, s₁)
    rw [hfil]
    exact hid
  refine ⟨s₁, ?_, ?_⟩
  · unfold applyLocationsRun
    rw [heq1]
  · unfold applyLocationsRun
    rw [h2]

/-- Witness for C5 (amended) at a concrete existing-identifier assignment. -/
theorem c5_witness :
    ∃ s₁,
      applyLocationsRun dangleStore 1 [⟨.birthplace, .existing 0⟩] = (none, s₁) ∧
      applyLocationsRun s₁ 1 [⟨.birthplace, .existing 0⟩] = (none, s₁) :=
  c5_idempotent_amended dangleStore 1 [⟨.birthplace, .existing 0⟩] (by decide) (by decide)
    (by decide) (by decide)
    (fun a ha => by
      have hax : a = ⟨.birthplace, .existing 0⟩ := by simpa using ha
      exact ⟨0, by rw [hax], by decide⟩)

/-- Witness for C7 at a concrete inline assignment. -/
theorem c7_witness :
    (∃ extra, ((apply_person_locations lonePersonStore 1 inlineAsgs).2).locations =
      lonePersonStore.locations ++ extra) ∧
    ∃ s' locId, apply_person_locations lonePersonStore 1 inlineAsgs = (none, s') ∧
      (⟨locId, ⟨"x", none, none, none, none⟩⟩ : Location) ∈ s'.locations ∧
      locId ∉ lonePersonStore.locations.map (fun loc => loc.id) ∧
      ∃ l ∈ s'.person_locations, l.person_id = 1 ∧ l.role = .birthplace ∧
        l.location_id = locId :=
  ⟨(c7_inline_insert_never_delete lonePersonStore 1 inlineAsgs).1,
    (c7_inline_insert_never_delete lonePersonStore 1 inlineAsgs).2 (by decide) (by decide)
      (by decide) (by unfold locIdsBounded lonePersonStore; decide) (by decide)
      (fun a ha lid h => by
        have hax : a = ⟨.birthplace, .inline ⟨"x", none, none, none, none⟩⟩ := by
          simpa [inlineAsgs] using ha
        rw [hax] at h
        cases h)
      .birthplace ⟨"x", none, none, none, none⟩ (by decide)⟩

end FamilyTree
